import Mathlib

set_option exponentiation.threshold 5000

/-! # Banking ledger (`src/Banking.cpp`)

A shallow embedding of the ledger core of `Banking.cpp`: the classes `Transaction`,
`Account`, `Customer` and `BankSystem`, together with the two validation utilities.

Modelling conventions.

* Amounts and balances are `double` in the source and `Double` here: IEEE-754 binary64
  with its infinities and NaN, each addition and subtraction carried out in binary64 and
  rounded to nearest, ties to even, and comparisons that are false on NaN. A finite
  double is kept as its whole number of units of `2 ^ -1074`. What `cin >> amount`
  delivers is a finite double (`Double.read`); the account operations themselves are
  defined for every double.
* `srNo`, `accNumber` and `serialCounter` (`int` in the source) are natural numbers; the
  counter starts at `1` and only grows, and wrap-around of the 32-bit type is outside the
  model.
* A `Transaction` keeps its `type` string and its `amount`; the wall-clock `timestamp`
  field, which only `display` prints, is left out.
* Console output is modelled as the list of outcome messages an operation prints, with the
  exact texts of the source. Prompts are not part of it: what the source reads from `cin`
  is passed as an argument.
* The `vector<Customer>` is a `List Customer`, a `Customer*` is an index into it
  (`Option Nat`, `none` for `nullptr`).
-/

namespace Banking

/-! ## The type `double` -/

/-- IEEE-754 binary64. Every finite double is a whole number of units of `2 ^ -1074` (the
smallest subnormal); `finite n` is the value `n * 2 ^ -1074` and is a double when `n` has
at most 53 significant bits and `|n| < 2 ^ 2098` (that is, below `2 ^ 1024`). The two
zeros are not told apart: the program only adds, subtracts and compares. -/
inductive Double where
  | finite (units : Int) : Double
  | posInf : Double
  | negInf : Double
  | nan : Double
  deriving DecidableEq, Repr

/-- Binary search for `Double.log2`: with `2 ^ k ≤ n` so far, try to add `2 ^ i` to `k` for
each `i` below the first argument, highest first. -/
def Double.log2Aux (n : Nat) : Nat → Nat → Nat
  | 0, k => k
  | i + 1, k => if 2 ^ (k + 2 ^ i) ≤ n then log2Aux n i (k + 2 ^ i) else log2Aux n i k

/-- The largest `k` below `4096` with `2 ^ k ≤ n`; for `1 ≤ n < 2 ^ 4096` the position of
the leading bit of `n`. -/
def Double.log2 (n : Nat) : Nat := Double.log2Aux n 12 0

/-- Round a magnitude, in units, to 53 significant bits, to nearest with ties to even.
Below `2 ^ 53` every whole number of units is a double. From there on, with `s` the number
of bits that do not fit, `q` the 53 leading bits and `r` the rest, `q` goes up when `r` is
above half of `2 ^ s`, or is exactly half while `q` is odd. -/
def Double.roundNat (n : Nat) : Nat :=
  if n < 2 ^ 53 then n
  else
    let s := Double.log2 n - 52
    let q := n / 2 ^ s
    let r := n % 2 ^ s
    let q1 := if 2 ^ (s - 1) < r ∨ (r = 2 ^ (s - 1) ∧ q % 2 = 1) then q + 1 else q
    q1 * 2 ^ s

/-- The double nearest to the given magnitude with the given sign; a magnitude that
rounds to `2 ^ 2098` units (`2 ^ 1024`) or more overflows to the infinity of that sign. -/
def Double.ofMagnitude (n : Nat) (negative : Bool) : Double :=
  if 2 ^ 2098 ≤ n ∨ 2 ^ 2098 ≤ Double.roundNat n then
    if negative then Double.negInf else Double.posInf
  else if negative then Double.finite (-(Double.roundNat n : Int))
  else Double.finite (Double.roundNat n)

/-- The result, as a double, of an operation whose exact result is `z` units. -/
def Double.ofInt (z : Int) : Double := Double.ofMagnitude z.natAbs (decide (z < 0))

/-- The sum `a + b` of two doubles. -/
def Double.add : Double → Double → Double
  | .nan, _ => .nan
  | _, .nan => .nan
  | .posInf, .negInf => .nan
  | .negInf, .posInf => .nan
  | .posInf, _ => .posInf
  | _, .posInf => .posInf
  | .negInf, _ => .negInf
  | _, .negInf => .negInf
  | .finite a, .finite b => Double.ofInt (a + b)

/-- The difference `a - b` of two doubles. -/
def Double.sub : Double → Double → Double
  | .nan, _ => .nan
  | _, .nan => .nan
  | .posInf, .posInf => .nan
  | .negInf, .negInf => .nan
  | .posInf, _ => .posInf
  | _, .negInf => .posInf
  | .negInf, _ => .negInf
  | _, .posInf => .negInf
  | .finite a, .finite b => Double.ofInt (a - b)

/-- The comparison `a <= b` of two doubles; false when either is NaN. -/
def Double.le : Double → Double → Bool
  | .nan, _ => false
  | _, .nan => false
  | .finite a, .finite b => decide (a ≤ b)
  | .negInf, _ => true
  | _, .posInf => true
  | _, _ => false

/-- The comparison `a < b` of two doubles; false when either is NaN. -/
def Double.lt : Double → Double → Bool
  | .nan, _ => false
  | _, .nan => false
  | .finite a, .finite b => decide (a < b)
  | .negInf, .negInf => false
  | .posInf, .posInf => false
  | .negInf, _ => true
  | _, .posInf => true
  | _, _ => false

instance : Add Double := ⟨Double.add⟩

instance : Sub Double := ⟨Double.sub⟩

instance : LE Double := ⟨fun a b => Double.le a b = true⟩

instance : LT Double := ⟨fun a b => Double.lt a b = true⟩

instance : OfNat Double 0 := ⟨Double.finite 0⟩

instance (a b : Double) : Decidable (a ≤ b) :=
  inferInstanceAs (Decidable (Double.le a b = true))

instance (a b : Double) : Decidable (a < b) :=
  inferInstanceAs (Decidable (Double.lt a b = true))

/-- Neither an infinity nor NaN. -/
def Double.isFinite : Double → Bool
  | .finite _ => true
  | _ => false

/-- The largest finite double, `DBL_MAX`, in units: `(2 ^ 53 - 1) * 2 ^ 2045`. -/
def Double.maxUnits : Int := ((2 ^ 53 - 1) * 2 ^ 2045 : Nat)

/-- What `cin >> amount` stores when the number typed is `z` units of `2 ^ -1074`: the
nearest double, and `DBL_MAX` with the sign of `z` when that is out of range. It is always
finite, and every finite double is stored for some `z` (a typed number that lies between
two whole numbers of units is stored as a double that one of them gives). -/
def Double.read (z : Int) : Double :=
  match Double.ofInt z with
  | .posInf => .finite Double.maxUnits
  | .negInf => .finite (-Double.maxUnits)
  | d => d

/-- The whole number `n` as a number of units of `2 ^ -1074`. -/
def Double.units (n : Int) : Int := n * ((2 ^ 1074 : Nat) : Int)

/-- The double read for the typed whole number `n`. -/
def Double.whole (n : Int) : Double := Double.read (Double.units n)

/-- The units of a finite double; `0` for the infinities and NaN. -/
def Double.unitsOf : Double → Int
  | .finite n => n
  | _ => 0

/-! ## Transaction -/

/-- Source `class Transaction` (lines 12-29): the `type` string and the `amount`. -/
structure Transaction where
  type : String
  amount : Double
  deriving DecidableEq, Repr

/-! ## Account -/

/-- Source `class Account` (lines 32-84). -/
structure Account where
  accNumber : Nat
  balance : Double
  transactions : List Transaction
  deriving DecidableEq, Repr

/-- Constructor `Account(int accNum)` (line 38): zero balance, no transactions. -/
def Account.new (accNum : Nat) : Account :=
  { accNumber := accNum, balance := 0, transactions := [] }

/-- Source `int getAccountNumber() const` (line 40). -/
def Account.getAccountNumber (self : Account) : Nat := self.accNumber

/-- Source `double getBalance() const` (line 41). -/
def Account.getBalance (self : Account) : Double := self.balance

/-- Source `void Account::deposit(double amount)` (lines 43-51): the account afterwards and the
message printed. -/
def Account.deposit (self : Account) (amount : Double) : Account × List String :=
  if amount ≤ 0 then
    (self, ["Invalid deposit amount.\n"])
  else
    ({ self with
        balance := self.balance + amount
        transactions := self.transactions ++ [Transaction.mk "Deposit" amount] },
     ["Deposit successful.\n"])

/-- Source `bool Account::withdraw(double amount)` (lines 53-62): the returned flag, the account
afterwards and the message printed. -/
def Account.withdraw (self : Account) (amount : Double) : Bool × Account × List String :=
  if amount ≤ 0 ∨ amount > self.balance then
    (false, self, ["Insufficient Funds.\n"])
  else
    (true,
     { self with
        balance := self.balance - amount
        transactions := self.transactions ++ [Transaction.mk "Withdrawal" amount] },
     ["Withdrawal successful.\n"])

/-- The account after line 67 has appended its record for a transfer to account number
`target`. -/
def Account.recordTransferTo (self : Account) (target : Nat) (amount : Double) : Account :=
  { self with
    transactions := self.transactions ++
      [Transaction.mk ("Transfer to " ++ toString target) amount] }

/-- Source `bool Account::transfer(Account &receiver, double amount)` (lines 64-71) when `receiver`
is an object other than `*this`: the returned flag, the sender afterwards, the receiver
afterwards and the messages printed. -/
def Account.transfer (self receiver : Account) (amount : Double) :
    Bool × Account × Account × List String :=
  match self.withdraw amount with
  | (true, self1, out1) =>
    let (receiver1, out2) := receiver.deposit amount
    (true, self1.recordTransferTo receiver1.getAccountNumber amount, receiver1, out1 ++ out2)
  | (false, self1, out1) => (false, self1, receiver, out1)

/-! ## Customer -/

/-- Source `class Customer` (lines 87-112). -/
structure Customer where
  name : String
  id : String
  srNo : Nat
  account : Account
  deriving DecidableEq, Repr

/-- Constructor `Customer(string n, string i, int sr)` (line 94): the account number is
`sr + 1000`. -/
def Customer.new (n i : String) (sr : Nat) : Customer :=
  { name := n, id := i, srNo := sr, account := Account.new (sr + 1000) }

/-- Source `string getID() const` (line 96). -/
def Customer.getID (self : Customer) : String := self.id

/-- Source `int getSrNo() const` (line 97). -/
def Customer.getSrNo (self : Customer) : Nat := self.srNo

/-- Source `string getName() const` (line 98). -/
def Customer.getName (self : Customer) : String := self.name

/-- Source `Account& getAccount()` (lines 101, 104). -/
def Customer.getAccount (self : Customer) : Account := self.account

/-! ## Validation utilities

The two patterns are kept as regular-expression terms and matched against the whole
string, as `std::regex_match` does. The anchors `^` and `$` of the source patterns add
nothing under whole-string matching, and capture groups do not affect acceptance. -/

/-- Regular expressions, as far as the two patterns of the source need them. `none`
matches no string; it only arises while matching. -/
inductive Regex where
  | none : Regex
  | eps : Regex
  | set (ranges : List (Char × Char)) : Regex
  | seq (r s : Regex) : Regex
  | alt (r s : Regex) : Regex
  | star (r : Regex) : Regex
  deriving DecidableEq, Repr

/-- Membership of a character in a bracket expression given as a list of inclusive ranges
(`[a-zA-Z0-9]` is `[('a','z'), ('A','Z'), ('0','9')]`), compared by character code. -/
def Regex.inRanges (ranges : List (Char × Char)) (c : Char) : Bool :=
  ranges.any fun lohi => decide (lohi.1.toNat ≤ c.toNat) && decide (c.toNat ≤ lohi.2.toNat)

/-- Whether the expression matches the empty string. -/
def Regex.nullable : Regex → Bool
  | .none => false
  | .eps => true
  | .set _ => false
  | .seq r s => r.nullable && s.nullable
  | .alt r s => r.nullable || s.nullable
  | .star _ => true

/-- What remains to be matched after reading the character `c`. -/
def Regex.deriv : Regex → Char → Regex
  | .none, _ => .none
  | .eps, _ => .none
  | .set ranges, c => if Regex.inRanges ranges c then .eps else .none
  | .seq r s, c =>
    if r.nullable then .alt (.seq (r.deriv c) s) (s.deriv c) else .seq (r.deriv c) s
  | .alt r s, c => .alt (r.deriv c) (s.deriv c)
  | .star r, c => .seq (r.deriv c) (.star r)

/-- Whole-string match of a character list. -/
def Regex.matchList (r : Regex) : List Char → Bool
  | [] => r.nullable
  | c :: cs => (r.deriv c).matchList cs

/-- Source `std::regex_match(s, r)`: the whole string `s` matches `r`. -/
def Regex.regex_match (s : String) (r : Regex) : Bool := r.matchList s.toList

/-- The sub-pattern `[A-Z][a-z]*`. -/
def capitalisedWord : Regex :=
  .seq (.set [('A', 'Z')]) (.star (.set [('a', 'z')]))

/-- The pattern `^([A-Z][a-z]*)( [A-Z][a-z]*)*$` of line 116. -/
def nameRegex : Regex :=
  .seq capitalisedWord (.star (.seq (.set [(' ', ' ')]) capitalisedWord))

/-- The pattern `^[a-zA-Z0-9]+$` of line 121 (`x+` is `x` followed by `x*`). -/
def idRegex : Regex :=
  .seq (.set [('a', 'z'), ('A', 'Z'), ('0', '9')])
    (.star (.set [('a', 'z'), ('A', 'Z'), ('0', '9')]))

/-- Source `bool isValidName(const string &name)` (lines 115-118). -/
def isValidName (name : String) : Bool := Regex.regex_match name nameRegex

/-- Source `bool isValidCustomerID(const string &id)` (lines 120-123). -/
def isValidCustomerID (id : String) : Bool := Regex.regex_match id idRegex

/-! ## BankSystem -/

/-- Source `class BankSystem` (lines 126-259): the customers in creation order and the counter
from which the next serial number is taken. -/
structure BankSystem where
  customers : List Customer
  serialCounter : Nat
  deriving DecidableEq, Repr

/-- A freshly constructed `BankSystem` (lines 127-128, 263): no customers, counter `1`. -/
def BankSystem.init : BankSystem :=
  { customers := [], serialCounter := 1 }

/-- The loop of `findCustomer` over a vector: position of the first customer whose id is
`id`, `none` when the loop runs to its end. -/
def findIn : List Customer → String → Option Nat
  | [], _ => none
  | c :: cs, id => if c.getID = id then some 0 else (findIn cs id).map (· + 1)

/-- Source `Customer* BankSystem::findCustomer(const string &id)` (lines 130-136). -/
def BankSystem.findCustomer (self : BankSystem) (id : String) : Option Nat :=
  findIn self.customers id

/-- Reading through `p->getAccount()`. Pointers come from `findCustomer` and always point
into the vector; outside it the value is an arbitrary empty account. -/
def BankSystem.getAccount (self : BankSystem) (p : Nat) : Account :=
  match self.customers.get? p with
  | some c => c.getAccount
  | none => Account.new 0

/-- Replace the account of the customer at position `p` of a vector. -/
def setAccountIn : List Customer → Nat → Account → List Customer
  | [], _, _ => []
  | c :: cs, 0, a => { c with account := a } :: cs
  | c :: cs, p + 1, a => c :: setAccountIn cs p a

/-- Writing through `p->getAccount()`: the account of the customer at `p` becomes `a`. -/
def BankSystem.setAccount (self : BankSystem) (p : Nat) (a : Account) : BankSystem :=
  { self with customers := setAccountIn self.customers p a }

/-- One pass of `BankSystem::createCustomer` (lines 139-171) with the entered `name` and
`id`. The source re-prompts after a rejected name (line 148) or id (lines 157, 162) without
touching the registry; such a pass ends here with the rejection message. An accepted
pass reaches line 169. -/
def BankSystem.createCustomer (self : BankSystem) (name id : String) :
    BankSystem × List String :=
  if ¬ isValidName name then
    (self, ["Invalid name format\n(Each word starts with capital)\n"])
  else if ¬ isValidCustomerID id then
    (self, ["Invalid ID format\n(Alphanumeric only, unique)\n"])
  else if (self.findCustomer id).isSome then
    (self, ["Customer ID already exists. Try different.\n"])
  else
    ({ customers := self.customers ++ [Customer.new name id self.serialCounter]
       serialCounter := self.serialCounter + 1 },
     ["Customer Account created successfully.\n"])

/-- Source `void BankSystem::deposit()` (lines 173-186) with the entered `id` and the number
typed for `amount`, in units of `2 ^ -1074`, which `cin` turns into a double (line 181). -/
def BankSystem.deposit (self : BankSystem) (id : String) (amount : Int) :
    BankSystem × List String :=
  match self.findCustomer id with
  | some c =>
    let (a, out) := (self.getAccount c).deposit (Double.read amount)
    (self.setAccount c a, out)
  | none => (self, ["Customer not found.\n"])

/-- Source `void BankSystem::withdraw()` (lines 188-201) with the entered `id` and the number
typed for `amount`, in units of `2 ^ -1074`, which `cin` turns into a double (line 196). -/
def BankSystem.withdraw (self : BankSystem) (id : String) (amount : Int) :
    BankSystem × List String :=
  match self.findCustomer id with
  | some c =>
    let (_, a, out) := (self.getAccount c).withdraw (Double.read amount)
    (self.setAccount c a, out)
  | none => (self, ["Customer not found.\n"])

/-- The call `sender->getAccount().transfer(receiver->getAccount(), amount)` of line 217,
executed statement by statement on the registry, so that `sender` and `receiver` may be
the same customer: `withdraw` on the sender (line 65), then `deposit` on the receiver
(line 66), then the extra record on the sender (line 67). -/
def BankSystem.accountTransfer (self : BankSystem) (sender receiver : Nat) (amount : Double) :
    Bool × BankSystem × List String :=
  match (self.getAccount sender).withdraw amount with
  | (true, a1, out1) =>
    let bs1 := self.setAccount sender a1
    let (a2, out2) := (bs1.getAccount receiver).deposit amount
    let bs2 := bs1.setAccount receiver a2
    let bs3 := bs2.setAccount sender
      ((bs2.getAccount sender).recordTransferTo
        (bs2.getAccount receiver).getAccountNumber amount)
    (true, bs3, out1 ++ out2)
  | (false, a1, out1) => (false, self.setAccount sender a1, out1)

/-- Source `void BankSystem::transfer()` (lines 203-222) with the entered ids and the number
typed for `amount`, in units of `2 ^ -1074`, which `cin` turns into a double (line 216). -/
def BankSystem.transfer (self : BankSystem) (fromID toID : String) (amount : Int) :
    BankSystem × List String :=
  match self.findCustomer fromID, self.findCustomer toID with
  | some sender, some receiver =>
    match self.accountTransfer sender receiver (Double.read amount) with
    | (true, bs, out) => (bs, out ++ ["Transfer successful.\n"])
    | (false, bs, out) => (bs, out)
  | _, _ => (self, ["One or both customers not found.\n"])

/-! ## The menu loop -/

/-- A state-changing menu choice of `main` (lines 272-277) with what the user enters;
amounts are the numbers typed, in units of `2 ^ -1074`. -/
inductive Op where
  | createCustomer (name id : String) : Op
  | deposit (id : String) (amount : Int) : Op
  | withdraw (id : String) (amount : Int) : Op
  | transfer (fromID toID : String) (amount : Int) : Op
  deriving DecidableEq, Repr

/-- One round of the menu loop: dispatch to the chosen operation. -/
def BankSystem.step (self : BankSystem) : Op → BankSystem
  | .createCustomer name id => (self.createCustomer name id).1
  | .deposit id amount => (self.deposit id amount).1
  | .withdraw id amount => (self.withdraw id amount).1
  | .transfer fromID toID amount => (self.transfer fromID toID amount).1

/-- The registry after the given rounds of the menu loop, starting from the empty one. -/
def BankSystem.run (ops : List Op) : BankSystem :=
  ops.foldl BankSystem.step BankSystem.init

/-- States the program can be in. -/
def Reachable (bs : BankSystem) : Prop := ∃ ops, BankSystem.run ops = bs

/-! ## Reading a history -/

/-- Exact sum, in units, of the amounts of the records of `h` whose type satisfies `p`. -/
def sumWhere (p : String → Bool) (h : List Transaction) : Int :=
  ((h.filter fun t => p t.type).map fun t => t.amount.unitsOf).sum

/-- A deposit record; an incoming transfer is recorded as one (line 66). -/
def isCredit (type : String) : Bool := type == "Deposit"

/-- A withdrawal record. -/
def isWithdrawal (type : String) : Bool := type == "Withdrawal"

/-- A record written by line 67. -/
def isTransferOut (type : String) : Bool := "Transfer to ".toList.isPrefixOf type.toList

/-- A withdrawal or an outgoing transfer record. -/
def isDebit (type : String) : Bool := isWithdrawal type || isTransferOut type

/-- Every customer of the registry satisfies `Q`. -/
def BankSystem.AllCustomers (Q : Customer → Prop) (bs : BankSystem) : Prop :=
  ∀ c ∈ bs.customers, Q c

/-- What it takes for a property `Q` of customers to survive every operation, given a
property `P` of accounts that the account operations keep. -/
structure Preserved (Q : Customer → Prop) (P : Account → Prop) : Prop where
  account : ∀ c, Q c → P c.account
  put : ∀ c a, Q c → P a → Q { c with account := a }
  fresh : ∀ name id sr, isValidName name = true → isValidCustomerID id = true →
    Q (Customer.new name id sr)
  dangling : P (Account.new 0)
  deposit : ∀ a amount, P a → P (a.deposit (Double.read amount)).1
  withdraw : ∀ a amount, P a → P (a.withdraw (Double.read amount)).2.1
  record : ∀ a n amount, ¬ Double.read amount ≤ 0 → P a →
    P (a.recordTransferTo n (Double.read amount))

/-- The effect of one record on a balance, in the arithmetic of the code: a `Deposit`
record adds its amount (line 48), a `Withdrawal` record subtracts it (line 58), any other
record leaves the balance alone. -/
def applyRecord (balance : Double) (t : Transaction) : Double :=
  if isCredit t.type then balance + t.amount
  else if isWithdrawal t.type then balance - t.amount
  else balance

/-- The balance obtained by going through a history in order, starting from `0.0`. -/
def replay (h : List Transaction) : Double :=
  h.foldl applyRecord 0

/-- The balance is what going through the history gives. -/
def Account.Balanced (a : Account) : Prop :=
  a.balance = replay a.transactions

/-! ## Comparing two states of the registry -/

/-- What identifies a customer: name, id, serial number and account number. -/
def Customer.identity (c : Customer) : String × String × Nat × Nat :=
  (c.name, c.id, c.srNo, c.account.accNumber)

/-- Account `a2` has the account number of `a` and the history of `a` followed by further
records. -/
def Account.Grows (a a2 : Account) : Prop :=
  a2.accNumber = a.accNumber ∧ ∃ added, a2.transactions = a.transactions ++ added

/-- Customer `c2` is customer `c` whose account has grown. -/
def Customer.Grows (c c2 : Customer) : Prop :=
  c2.name = c.name ∧ c2.id = c.id ∧ c2.srNo = c.srNo ∧ c.account.Grows c2.account

/-- State `bs2` has the counter of `bs` and, position by position, the customers of `bs`
with grown accounts; customers at positions outside `touched` are the same. -/
def BankSystem.Evolves (bs : BankSystem) (touched : List Nat) (bs2 : BankSystem) : Prop :=
  bs2.serialCounter = bs.serialCounter ∧
  bs2.customers.length = bs.customers.length ∧
  ∀ k c, bs.customers.get? k = some c →
    ∃ c2, bs2.customers.get? k = some c2 ∧ c.Grows c2 ∧ (k ∉ touched → c2 = c)

/-- State `bs2` has the counter of `bs`, the same customers in the same order as far as
name, id, serial number and account number go, and the very same customer (balance and
history included) at every position outside `touched`. -/
def BankSystem.SameExcept (bs : BankSystem) (touched : List Nat) (bs2 : BankSystem) : Prop :=
  bs2.serialCounter = bs.serialCounter ∧
  bs2.customers.map Customer.identity = bs.customers.map Customer.identity ∧
  ∀ k, k ∉ touched → bs2.customers.get? k = bs.customers.get? k

/-- Exact sum, in units, of the balances of all accounts of the registry. -/
def BankSystem.totalBalance (bs : BankSystem) : Int :=
  (bs.customers.map fun c => c.account.balance.unitsOf).sum

/-- The numbering discipline of the registry, read off the identities `ids` of its
customers and the counter `n`: the counter is one more than the number of customers, the
customer at position `k` has serial number `k + 1` and account number `k + 1 + 1000`, no
two customers share an id or a serial number, and every serial number is below the
counter with the account number `1000` above it. -/
def WellNumbered (ids : List (String × String × Nat × Nat)) (n : Nat) : Prop :=
  n = ids.length + 1 ∧
  (∀ k e, ids.get? k = some e → e.2.2.1 = k + 1 ∧ e.2.2.2 = k + 1 + 1000) ∧
  (ids.map fun e => e.2.1).Nodup ∧
  (ids.map fun e => e.2.2.1).Nodup ∧
  (∀ e ∈ ids, e.2.2.1 < n ∧ e.2.2.2 = e.2.2.1 + 1000)

/-! ## The formats in the words of the specification

These follow the wording of the specification, not the patterns of the source; the
properties below compare the two. -/

/-- The specification's word: one ASCII uppercase letter followed by zero or more ASCII
lowercase letters. -/
def isCapitalisedWordSpec : List Char → Bool
  | [] => false
  | c :: cs => c.isUpper && cs.all Char.isLower

/-- The given words written one after the other with exactly one space between
neighbours, and none before the first or after the last. -/
def joinWithSpaces : List (List Char) → List Char
  | [] => []
  | [w] => w
  | w :: w2 :: ws => w ++ ' ' :: joinWithSpaces (w2 :: ws)

/-- The specification's name format: a non-empty sequence of words, each one capital
letter followed by lowercase letters, separated by exactly one space each. -/
def NameSpec (name : String) : Prop :=
  ∃ ws : List (List Char), ws ≠ [] ∧ (∀ w ∈ ws, isCapitalisedWordSpec w = true) ∧
    name.toList = joinWithSpaces ws

/-- The specification's id format: non-empty, and every character an ASCII letter or an
ASCII digit. -/
def idSpec (id : String) : Bool :=
  !id.toList.isEmpty && id.toList.all Char.isAlphanum

/-- Each of the given words written with one space before it. -/
def spacedWords : List (List Char) → List Char
  | [] => []
  | w :: ws => ' ' :: (w ++ spacedWords ws)

/-! # Properties -/

/-! ## Order and sign of doubles -/

theorem Double.zero_eq : (0 : Double) = Double.finite 0 := rfl

theorem Double.le_iff (a b : Double) : a ≤ b ↔ Double.le a b = true := Iff.rfl

theorem Double.lt_iff (a b : Double) : a < b ↔ Double.lt a b = true := Iff.rfl

theorem Double.finite_le_finite (m n : Int) :
    Double.finite m ≤ Double.finite n ↔ m ≤ n := by
  simp [Double.le_iff, Double.le]

theorem Double.finite_lt_finite (m n : Int) :
    Double.finite m < Double.finite n ↔ m < n := by
  simp [Double.lt_iff, Double.lt]

theorem Double.ofMagnitude_nonneg (n : Nat) : 0 ≤ Double.ofMagnitude n false := by
  simp only [Double.ofMagnitude, Bool.false_eq_true, if_false]
  split_ifs
  · rfl
  · rw [Double.zero_eq, Double.finite_le_finite]
    exact Int.ofNat_nonneg _

theorem Double.ofInt_nonneg {z : Int} (h : 0 ≤ z) : 0 ≤ Double.ofInt z := by
  have hz : decide (z < 0) = false := by simpa using h
  unfold Double.ofInt
  rw [hz]
  exact Double.ofMagnitude_nonneg _

theorem Double.ofInt_zero : Double.ofInt 0 = 0 := by decide

theorem Double.ofInt_not_nan (z : Int) : Double.ofInt z ≠ Double.nan := by
  unfold Double.ofInt Double.ofMagnitude
  split_ifs <;> simp

theorem Double.read_finite (z : Int) : ∃ n, Double.read z = Double.finite n := by
  unfold Double.read
  cases h : Double.ofInt z with
  | finite n => exact ⟨n, rfl⟩
  | posInf => exact ⟨_, rfl⟩
  | negInf => exact ⟨_, rfl⟩
  | nan => exact absurd h (Double.ofInt_not_nan z)

theorem Double.read_isFinite (z : Int) : (Double.read z).isFinite = true := by
  obtain ⟨n, hn⟩ := Double.read_finite z
  rw [hn]
  rfl

theorem Double.pos_not_le_zero {a : Double} (h : 0 < a) : ¬ a ≤ 0 := by
  cases a <;> simp_all [Double.zero_eq, Double.le_iff, Double.lt_iff, Double.le, Double.lt]

theorem Double.pos_of_not_le_zero {a : Double} (hn : a ≠ Double.nan) (h : ¬ a ≤ 0) :
    0 < a := by
  cases a <;> simp_all [Double.zero_eq, Double.le_iff, Double.lt_iff, Double.le, Double.lt]

theorem Double.le_not_gt {a b : Double} (h : a ≤ b) : ¬ a > b := by
  show ¬ b < a
  cases a <;> cases b <;>
    simp_all [Double.le_iff, Double.lt_iff, Double.le, Double.lt]

theorem Double.le_of_not_gt {a b : Double} (ha : a ≠ Double.nan) (hb : b ≠ Double.nan)
    (h : ¬ a > b) : a ≤ b := by
  have h2 : ¬ b < a := h
  cases a <;> cases b <;>
    simp_all [Double.le_iff, Double.lt_iff, Double.le, Double.lt]

theorem Double.add_nonneg {b a : Double} (hb : 0 ≤ b) (hf : a.isFinite = true)
    (ha : ¬ a ≤ 0) : 0 ≤ b + a := by
  cases a with
  | finite n =>
    cases b with
    | finite m =>
      have hm : 0 ≤ m := by
        simpa [Double.zero_eq, Double.finite_le_finite] using hb
      have hn : 0 < n := by
        simpa [Double.zero_eq, Double.finite_le_finite] using ha
      show 0 ≤ Double.ofInt (m + n)
      exact Double.ofInt_nonneg (by omega)
    | posInf => rfl
    | negInf => exact absurd hb (by decide)
    | nan => exact absurd hb (by decide)
  | posInf => exact absurd hf (by decide)
  | negInf => exact absurd hf (by decide)
  | nan => exact absurd hf (by decide)

theorem Double.sub_nonneg {b a : Double} (hb : 0 ≤ b) (hf : a.isFinite = true)
    (hgt : ¬ a > b) : 0 ≤ b - a := by
  cases a with
  | finite n =>
    cases b with
    | finite m =>
      have hn : n ≤ m := by
        have : ¬ Double.finite m < Double.finite n := hgt
        simpa [Double.finite_lt_finite] using this
      show 0 ≤ Double.ofInt (m - n)
      exact Double.ofInt_nonneg (by omega)
    | posInf => rfl
    | negInf => exact absurd hb (by decide)
    | nan => exact absurd hb (by decide)
  | posInf => exact absurd hf (by decide)
  | negInf => exact absurd hf (by decide)
  | nan => exact absurd hf (by decide)

/-! ## Records written by a transfer -/

theorem isCredit_transferRecord (n : Nat) :
    isCredit ("Transfer to " ++ toString n) = false := by
  have h : ("Transfer to " ++ toString n) ≠ "Deposit" := by
    intro h
    have h2 := congrArg String.data h
    simp at h2
  simpa [isCredit] using h

theorem isWithdrawal_transferRecord (n : Nat) :
    isWithdrawal ("Transfer to " ++ toString n) = false := by
  have h : ("Transfer to " ++ toString n) ≠ "Withdrawal" := by
    intro h
    have h2 := congrArg String.data h
    simp at h2
  simpa [isWithdrawal] using h

theorem replay_append (h : List Transaction) (t : Transaction) :
    replay (h ++ [t]) = applyRecord (replay h) t := by
  simp [replay, List.foldl_append]

/-! ## Account operations, one at a time -/

theorem deposit_nonpos (acc : Account) (amount : Double) (h : amount ≤ 0) :
    acc.deposit amount = (acc, ["Invalid deposit amount.\n"]) := by
  simp [Account.deposit, h]

theorem deposit_pos (acc : Account) (amount : Double) (h : ¬ amount ≤ 0) :
    acc.deposit amount =
      ({ acc with
          balance := acc.balance + amount
          transactions := acc.transactions ++ [Transaction.mk "Deposit" amount] },
       ["Deposit successful.\n"]) := by
  simp [Account.deposit, h]

theorem withdraw_rejected (acc : Account) (amount : Double)
    (h : amount ≤ 0 ∨ amount > acc.balance) :
    acc.withdraw amount = (false, acc, ["Insufficient Funds.\n"]) := by
  simp [Account.withdraw, h]

theorem withdraw_accepted (acc : Account) (amount : Double)
    (h : ¬ (amount ≤ 0 ∨ amount > acc.balance)) :
    acc.withdraw amount =
      (true,
       { acc with
          balance := acc.balance - amount
          transactions := acc.transactions ++ [Transaction.mk "Withdrawal" amount] },
       ["Withdrawal successful.\n"]) := by
  simp [Account.withdraw, h]

theorem withdraw_flag (acc : Account) (amount : Double) :
    (acc.withdraw amount).1 = true ↔ ¬ (amount ≤ 0 ∨ amount > acc.balance) := by
  by_cases h : amount ≤ 0 ∨ amount > acc.balance
  · rw [withdraw_rejected acc amount h]
    simp [h]
  · rw [withdraw_accepted acc amount h]
    simp [h]

theorem transfer_rejected (x y : Account) (amount : Double)
    (h : amount ≤ 0 ∨ amount > x.balance) :
    x.transfer y amount = (false, x, y, ["Insufficient Funds.\n"]) := by
  simp [Account.transfer, withdraw_rejected x amount h]

theorem transfer_accepted (x y : Account) (amount : Double)
    (h : ¬ (amount ≤ 0 ∨ amount > x.balance)) :
    x.transfer y amount =
      (true,
       { x with
          balance := x.balance - amount
          transactions := x.transactions ++
            [Transaction.mk "Withdrawal" amount,
             Transaction.mk ("Transfer to " ++ toString y.accNumber) amount] },
       { y with
          balance := y.balance + amount
          transactions := y.transactions ++ [Transaction.mk "Deposit" amount] },
       ["Withdrawal successful.\n", "Deposit successful.\n"]) := by
  have h1 : ¬ amount ≤ 0 := fun hc => h (Or.inl hc)
  simp [Account.transfer, withdraw_accepted x amount h, deposit_pos y amount h1,
    Account.getAccountNumber, Account.recordTransferTo]

theorem transfer_flag (x y : Account) (amount : Double) :
    (x.transfer y amount).1 = (x.withdraw amount).1 := by
  by_cases h : amount ≤ 0 ∨ amount > x.balance
  · rw [transfer_rejected x y amount h, withdraw_rejected x amount h]
  · rw [transfer_accepted x y amount h, withdraw_accepted x amount h]

theorem guard_of_pos_le {a b : Double} (hpos : 0 < a) (hle : a ≤ b) :
    ¬ (a ≤ 0 ∨ a > b) := by
  rintro (h | h)
  · exact Double.pos_not_le_zero hpos h
  · exact Double.le_not_gt hle h

theorem pos_le_of_guard {a b : Double} (ha : a ≠ Double.nan) (hb : b ≠ Double.nan)
    (h : ¬ (a ≤ 0 ∨ a > b)) : 0 < a ∧ a ≤ b :=
  ⟨Double.pos_of_not_le_zero ha (fun hc => h (Or.inl hc)),
   Double.le_of_not_gt ha hb (fun hc => h (Or.inr hc))⟩

/-! ## What every operation of the registry preserves -/

theorem mem_setAccountIn {cs : List Customer} {p : Nat} {a : Account} {c : Customer}
    (h : c ∈ setAccountIn cs p a) :
    c ∈ cs ∨ ∃ c0 ∈ cs, c = { c0 with account := a } := by
  induction cs generalizing p with
  | nil => simp [setAccountIn] at h
  | cons d ds ih =>
    cases p with
    | zero =>
      simp only [setAccountIn, List.mem_cons] at h
      rcases h with h | h
      · exact Or.inr ⟨d, List.mem_cons_self _ _, h⟩
      · exact Or.inl (List.mem_cons_of_mem _ h)
    | succ q =>
      simp only [setAccountIn, List.mem_cons] at h
      rcases h with h | h
      · exact Or.inl (h ▸ List.mem_cons_self _ _)
      · rcases ih h with h2 | ⟨c0, hc0, hc⟩
        · exact Or.inl (List.mem_cons_of_mem _ h2)
        · exact Or.inr ⟨c0, List.mem_cons_of_mem _ hc0, hc⟩

theorem getAccount_preserved {Q : Customer → Prop} {P : Account → Prop}
    (hp : Preserved Q P) (bs : BankSystem) (h : bs.AllCustomers Q) (p : Nat) :
    P (bs.getAccount p) := by
  unfold BankSystem.getAccount
  cases hg : bs.customers.get? p with
  | none => exact hp.dangling
  | some c => exact hp.account c (h c (List.get?_mem hg))

theorem setAccount_preserved {Q : Customer → Prop} {P : Account → Prop}
    (hp : Preserved Q P) (bs : BankSystem) (h : bs.AllCustomers Q) (p : Nat) (a : Account)
    (ha : P a) : (bs.setAccount p a).AllCustomers Q := by
  intro c hc
  rcases mem_setAccountIn hc with h1 | ⟨c0, hc0, rfl⟩
  · exact h c h1
  · exact hp.put c0 a (h c0 hc0) ha

theorem createCustomer_invalidName (bs : BankSystem) (name id : String)
    (h : isValidName name = false) :
    bs.createCustomer name id =
      (bs, ["Invalid name format\n(Each word starts with capital)\n"]) := by
  simp [BankSystem.createCustomer, h]

theorem createCustomer_invalidID (bs : BankSystem) (name id : String)
    (h1 : isValidName name = true) (h2 : isValidCustomerID id = false) :
    bs.createCustomer name id =
      (bs, ["Invalid ID format\n(Alphanumeric only, unique)\n"]) := by
  simp [BankSystem.createCustomer, h1, h2]

theorem createCustomer_existing (bs : BankSystem) (name id : String)
    (h1 : isValidName name = true) (h2 : isValidCustomerID id = true)
    (h3 : (bs.findCustomer id).isSome = true) :
    bs.createCustomer name id =
      (bs, ["Customer ID already exists. Try different.\n"]) := by
  simp [BankSystem.createCustomer, h1, h2, h3]

theorem createCustomer_created (bs : BankSystem) (name id : String)
    (h1 : isValidName name = true) (h2 : isValidCustomerID id = true)
    (h3 : (bs.findCustomer id).isSome = false) :
    bs.createCustomer name id =
      ({ customers := bs.customers ++ [Customer.new name id bs.serialCounter]
         serialCounter := bs.serialCounter + 1 },
       ["Customer Account created successfully.\n"]) := by
  simp [BankSystem.createCustomer, h1, h2, h3]

theorem createCustomer_preserved {Q : Customer → Prop} {P : Account → Prop}
    (hp : Preserved Q P) (bs : BankSystem) (h : bs.AllCustomers Q) (name id : String) :
    (bs.createCustomer name id).1.AllCustomers Q := by
  cases h1 : isValidName name with
  | false => rw [createCustomer_invalidName bs name id h1]; exact h
  | true =>
    cases h2 : isValidCustomerID id with
    | false => rw [createCustomer_invalidID bs name id h1 h2]; exact h
    | true =>
      cases h3 : (bs.findCustomer id).isSome with
      | true => rw [createCustomer_existing bs name id h1 h2 h3]; exact h
      | false =>
        rw [createCustomer_created bs name id h1 h2 h3]
        intro c hc
        simp only [List.mem_append, List.mem_singleton] at hc
        rcases hc with hc | rfl
        · exact h c hc
        · exact hp.fresh name id _ h1 h2

theorem deposit_preserved {Q : Customer → Prop} {P : Account → Prop}
    (hp : Preserved Q P) (bs : BankSystem) (h : bs.AllCustomers Q) (id : String)
    (amount : Int) : (bs.deposit id amount).1.AllCustomers Q := by
  unfold BankSystem.deposit
  cases bs.findCustomer id with
  | none => exact h
  | some c =>
    exact setAccount_preserved hp bs h c _
      (hp.deposit _ amount (getAccount_preserved hp bs h c))

theorem withdraw_preserved {Q : Customer → Prop} {P : Account → Prop}
    (hp : Preserved Q P) (bs : BankSystem) (h : bs.AllCustomers Q) (id : String)
    (amount : Int) : (bs.withdraw id amount).1.AllCustomers Q := by
  unfold BankSystem.withdraw
  cases bs.findCustomer id with
  | none => exact h
  | some c =>
    exact setAccount_preserved hp bs h c _
      (hp.withdraw _ amount (getAccount_preserved hp bs h c))

theorem accountTransfer_preserved {Q : Customer → Prop} {P : Account → Prop}
    (hp : Preserved Q P) (bs : BankSystem) (h : bs.AllCustomers Q) (sender receiver : Nat)
    (amount : Int) :
    (bs.accountTransfer sender receiver (Double.read amount)).2.1.AllCustomers Q := by
  have hw := hp.withdraw _ amount (getAccount_preserved hp bs h sender)
  have hflag := withdraw_flag (bs.getAccount sender) (Double.read amount)
  unfold BankSystem.accountTransfer
  rcases hres : (bs.getAccount sender).withdraw (Double.read amount) with ⟨ok, a1, out1⟩
  rw [hres] at hw hflag
  cases ok with
  | false => exact setAccount_preserved hp bs h sender a1 hw
  | true =>
    have hpos : ¬ Double.read amount ≤ 0 := fun hc => hflag.1 rfl (Or.inl hc)
    have h1 := setAccount_preserved hp bs h sender a1 hw
    have h2 := setAccount_preserved hp _ h1 receiver _
      (hp.deposit _ amount (getAccount_preserved hp _ h1 receiver))
    exact setAccount_preserved hp _ h2 sender _
      (hp.record _ _ amount hpos (getAccount_preserved hp _ h2 sender))

theorem transfer_preserved {Q : Customer → Prop} {P : Account → Prop}
    (hp : Preserved Q P) (bs : BankSystem) (h : bs.AllCustomers Q) (fromID toID : String)
    (amount : Int) : (bs.transfer fromID toID amount).1.AllCustomers Q := by
  have ht := fun s r => accountTransfer_preserved hp bs h s r amount
  unfold BankSystem.transfer
  cases bs.findCustomer fromID with
  | none => exact h
  | some s =>
    cases bs.findCustomer toID with
    | none => exact h
    | some r =>
      have hsr := ht s r
      dsimp only
      rcases hres : bs.accountTransfer s r (Double.read amount) with ⟨ok, bs1, out⟩
      rw [hres] at hsr
      cases ok <;> exact hsr

theorem step_preserved {Q : Customer → Prop} {P : Account → Prop}
    (hp : Preserved Q P) (bs : BankSystem) (h : bs.AllCustomers Q) (op : Op) :
    (bs.step op).AllCustomers Q := by
  cases op with
  | createCustomer name id => exact createCustomer_preserved hp bs h name id
  | deposit id amount => exact deposit_preserved hp bs h id amount
  | withdraw id amount => exact withdraw_preserved hp bs h id amount
  | transfer fromID toID amount => exact transfer_preserved hp bs h fromID toID amount

theorem foldl_step_preserved {Q : Customer → Prop} {P : Account → Prop}
    (hp : Preserved Q P) (ops : List Op) (bs : BankSystem) (h : bs.AllCustomers Q) :
    (ops.foldl BankSystem.step bs).AllCustomers Q := by
  induction ops generalizing bs with
  | nil => exact h
  | cons op rest ih => exact ih (bs.step op) (step_preserved hp bs h op)

theorem run_preserved {Q : Customer → Prop} {P : Account → Prop}
    (hp : Preserved Q P) (ops : List Op) : (BankSystem.run ops).AllCustomers Q :=
  foldl_step_preserved hp ops BankSystem.init (fun c hc => by simp [BankSystem.init] at hc)

/-! ## The preserved properties used below -/

theorem balanced_preserved : Preserved (fun c => c.account.Balanced) Account.Balanced where
  account := fun _ h => h
  put := fun _ _ _ h => h
  fresh := fun _ _ _ _ _ => rfl
  dangling := rfl
  deposit := by
    intro a amount h
    unfold Account.Balanced at h ⊢
    by_cases hrej : Double.read amount ≤ 0
    · rw [deposit_nonpos a _ hrej]
      exact h
    · rw [deposit_pos a _ hrej]
      show a.balance + Double.read amount = replay (a.transactions ++ [_])
      rw [replay_append, ← h]
      rfl
  withdraw := by
    intro a amount h
    unfold Account.Balanced at h ⊢
    by_cases hrej : Double.read amount ≤ 0 ∨ Double.read amount > a.balance
    · rw [withdraw_rejected a _ hrej]
      exact h
    · rw [withdraw_accepted a _ hrej]
      show a.balance - Double.read amount = replay (a.transactions ++ [_])
      rw [replay_append, ← h]
      rfl
  record := by
    intro a n amount _ h
    unfold Account.Balanced at h ⊢
    show a.balance = replay (a.transactions ++ [_])
    rw [replay_append, ← h]
    simp only [applyRecord, isCredit_transferRecord, isWithdrawal_transferRecord]
    rfl

theorem nonneg_preserved :
    Preserved (fun c => 0 ≤ c.account.balance) (fun a => 0 ≤ a.balance) where
  account := fun _ h => h
  put := fun _ _ _ h => h
  fresh := fun _ _ _ _ _ => (by decide : (0 : Double) ≤ 0)
  dangling := (by decide : (0 : Double) ≤ 0)
  deposit := by
    intro a amount h
    by_cases hrej : Double.read amount ≤ 0
    · rw [deposit_nonpos a _ hrej]
      exact h
    · rw [deposit_pos a _ hrej]
      exact Double.add_nonneg h (Double.read_isFinite amount) hrej
  withdraw := by
    intro a amount h
    by_cases hrej : Double.read amount ≤ 0 ∨ Double.read amount > a.balance
    · rw [withdraw_rejected a _ hrej]
      exact h
    · rw [withdraw_accepted a _ hrej]
      exact Double.sub_nonneg h (Double.read_isFinite amount) (fun hc => hrej (Or.inr hc))
  record := fun _ _ _ _ h => h

theorem validID_preserved :
    Preserved (fun c => isValidCustomerID c.id = true) (fun _ => True) where
  account := fun _ _ => trivial
  put := fun _ _ h _ => h
  fresh := fun _ _ _ _ h => h
  dangling := trivial
  deposit := fun _ _ _ => trivial
  withdraw := fun _ _ _ => trivial
  record := fun _ _ _ _ _ => trivial

theorem read_pos_of_not_le_zero (amount : Int) (h : ¬ Double.read amount ≤ 0) :
    0 < Double.read amount := by
  obtain ⟨n, hn⟩ := Double.read_finite amount
  rw [hn] at h ⊢
  exact Double.pos_of_not_le_zero (by simp) h

theorem positive_preserved :
    Preserved (fun c => ∀ t ∈ c.account.transactions, 0 < t.amount)
      (fun a => ∀ t ∈ a.transactions, 0 < t.amount) where
  account := fun _ h => h
  put := fun _ _ _ h => h
  fresh := fun _ _ _ _ _ => by simp [Customer.new, Account.new]
  dangling := by simp [Account.new]
  deposit := by
    intro a amount h
    by_cases hrej : Double.read amount ≤ 0
    · rw [deposit_nonpos a _ hrej]
      exact h
    · rw [deposit_pos a _ hrej]
      intro t ht
      simp only [List.mem_append, List.mem_singleton] at ht
      rcases ht with ht | rfl
      · exact h t ht
      · exact read_pos_of_not_le_zero amount hrej
  withdraw := by
    intro a amount h
    by_cases hrej : Double.read amount ≤ 0 ∨ Double.read amount > a.balance
    · rw [withdraw_rejected a _ hrej]
      exact h
    · rw [withdraw_accepted a _ hrej]
      intro t ht
      simp only [List.mem_append, List.mem_singleton] at ht
      rcases ht with ht | rfl
      · exact h t ht
      · exact read_pos_of_not_le_zero amount (fun hc => hrej (Or.inl hc))
  record := by
    intro a n amount hpos h t ht
    simp only [Account.recordTransferTo, List.mem_append, List.mem_singleton] at ht
    rcases ht with ht | rfl
    · exact h t ht
    · exact read_pos_of_not_le_zero amount hpos

/-! ## Looking a customer up -/

theorem findIn_isSome (cs : List Customer) (id : String) :
    (findIn cs id).isSome = true ↔ ∃ c ∈ cs, c.id = id := by
  induction cs with
  | nil => simp [findIn]
  | cons d ds ih =>
    by_cases hd : d.id = id
    · simp [findIn, Customer.getID, hd]
    · simp [findIn, Customer.getID, hd, ih]

/-! ## Reading and writing accounts through positions -/

theorem length_setAccountIn (cs : List Customer) (p : Nat) (a : Account) :
    (setAccountIn cs p a).length = cs.length := by
  induction cs generalizing p with
  | nil => rfl
  | cons d ds ih =>
    cases p with
    | zero => rfl
    | succ q => simp [setAccountIn, ih]

theorem get?_setAccountIn_same (cs : List Customer) (p : Nat) (a : Account) :
    (setAccountIn cs p a).get? p = (cs.get? p).map fun c => { c with account := a } := by
  induction cs generalizing p with
  | nil => rfl
  | cons d ds ih =>
    cases p with
    | zero => rfl
    | succ q => simpa [setAccountIn] using ih q

theorem get?_setAccountIn_ne (cs : List Customer) (p q : Nat) (a : Account) (h : p ≠ q) :
    (setAccountIn cs p a).get? q = cs.get? q := by
  induction cs generalizing p q with
  | nil => rfl
  | cons d ds ih =>
    cases p with
    | zero =>
      cases q with
      | zero => exact absurd rfl h
      | succ q2 => rfl
    | succ p2 =>
      cases q with
      | zero => rfl
      | succ q2 => simpa [setAccountIn] using ih p2 q2 (fun e => h (by rw [e]))

theorem setAccountIn_overwrite (cs : List Customer) (p : Nat) (a b : Account) :
    setAccountIn (setAccountIn cs p a) p b = setAccountIn cs p b := by
  induction cs generalizing p with
  | nil => rfl
  | cons d ds ih =>
    cases p with
    | zero => rfl
    | succ q => simp [setAccountIn, ih]

theorem setAccountIn_comm (cs : List Customer) (p q : Nat) (a b : Account) (h : p ≠ q) :
    setAccountIn (setAccountIn cs p a) q b = setAccountIn (setAccountIn cs q b) p a := by
  induction cs generalizing p q with
  | nil => rfl
  | cons d ds ih =>
    cases p with
    | zero =>
      cases q with
      | zero => exact absurd rfl h
      | succ q2 => rfl
    | succ p2 =>
      cases q with
      | zero => rfl
      | succ q2 => simp [setAccountIn, ih p2 q2 (fun e => h (by rw [e]))]

theorem setAccountIn_unchanged (cs : List Customer) (p : Nat) (a : Account)
    (h : ∀ c, cs.get? p = some c → c.account = a) : setAccountIn cs p a = cs := by
  induction cs generalizing p with
  | nil => rfl
  | cons d ds ih =>
    cases p with
    | zero =>
      have hd : d.account = a := h d rfl
      simp [setAccountIn, ← hd]
    | succ q =>
      have hq : ∀ c, ds.get? q = some c → c.account = a := fun c hc => h c (by simpa using hc)
      simp [setAccountIn, ih q hq]

theorem getAccount_setAccount_same (bs : BankSystem) (p : Nat) (a : Account)
    (hp : p < bs.customers.length) : (bs.setAccount p a).getAccount p = a := by
  obtain ⟨c, hc⟩ : ∃ c, bs.customers.get? p = some c :=
    ⟨bs.customers.get ⟨p, hp⟩, List.get?_eq_get hp⟩
  unfold BankSystem.getAccount BankSystem.setAccount
  dsimp only
  rw [get?_setAccountIn_same, hc]
  rfl

theorem getAccount_setAccount_ne (bs : BankSystem) (p q : Nat) (a : Account) (h : p ≠ q) :
    (bs.setAccount p a).getAccount q = bs.getAccount q := by
  unfold BankSystem.getAccount BankSystem.setAccount
  dsimp only
  rw [get?_setAccountIn_ne _ p q a h]

theorem setAccount_overwrite (bs : BankSystem) (p : Nat) (a b : Account) :
    (bs.setAccount p a).setAccount p b = bs.setAccount p b := by
  simp [BankSystem.setAccount, setAccountIn_overwrite]

theorem setAccount_comm (bs : BankSystem) (p q : Nat) (a b : Account) (h : p ≠ q) :
    (bs.setAccount p a).setAccount q b = (bs.setAccount q b).setAccount p a := by
  simp [BankSystem.setAccount, setAccountIn_comm _ p q a b h]

theorem setAccount_getAccount (bs : BankSystem) (p : Nat) :
    bs.setAccount p (bs.getAccount p) = bs := by
  have h : setAccountIn bs.customers p (bs.getAccount p) = bs.customers := by
    apply setAccountIn_unchanged
    intro c hc
    unfold BankSystem.getAccount
    rw [hc]
    rfl
  simp [BankSystem.setAccount, h]

theorem findIn_lt (cs : List Customer) (id : String) (p : Nat) (h : findIn cs id = some p) :
    p < cs.length := by
  induction cs generalizing p with
  | nil => simp [findIn] at h
  | cons d ds ih =>
    by_cases hd : d.getID = id
    · simp [findIn, hd] at h
      subst h
      simp
    · simp only [findIn, hd, if_false, Option.map_eq_some'] at h
      obtain ⟨q, hq, rfl⟩ := h
      have := ih q hq
      simp only [List.length_cons]
      omega

/-- On two different customers of the registry, the statement-by-statement execution of
line 217 is `Account.transfer` on their two accounts, written back. -/
theorem accountTransfer_distinct (bs : BankSystem) (s r : Nat) (amount : Double)
    (hs : s < bs.customers.length) (hr : r < bs.customers.length) (hsr : s ≠ r) :
    bs.accountTransfer s r amount =
      (((bs.getAccount s).transfer (bs.getAccount r) amount).1,
       (bs.setAccount s ((bs.getAccount s).transfer (bs.getAccount r) amount).2.1).setAccount r
         ((bs.getAccount s).transfer (bs.getAccount r) amount).2.2.1,
       ((bs.getAccount s).transfer (bs.getAccount r) amount).2.2.2) := by
  by_cases h : amount ≤ 0 ∨ amount > (bs.getAccount s).balance
  · rw [transfer_rejected _ _ amount h]
    simp only [BankSystem.accountTransfer, withdraw_rejected _ amount h]
    rw [setAccount_getAccount]
    have h2 : bs.setAccount r (bs.getAccount r) = bs := setAccount_getAccount bs r
    rw [h2]
  · have h1 : ¬ amount ≤ 0 := fun hc => h (Or.inl hc)
    have hr2 : r < (bs.setAccount s
        { (bs.getAccount s) with
          balance := (bs.getAccount s).balance - amount
          transactions := (bs.getAccount s).transactions ++
            [Transaction.mk "Withdrawal" amount] }).customers.length := by
      simpa [BankSystem.setAccount, length_setAccountIn] using hr
    rw [transfer_accepted _ _ amount h]
    simp only [BankSystem.accountTransfer, withdraw_accepted _ amount h]
    rw [getAccount_setAccount_ne _ s r _ hsr, deposit_pos _ amount h1]
    simp only []
    rw [getAccount_setAccount_same _ r _ hr2,
      getAccount_setAccount_ne _ r s _ (Ne.symm hsr),
      getAccount_setAccount_same _ s _ hs,
      setAccount_comm _ s r _ _ hsr, setAccount_overwrite, setAccount_comm _ s r _ _ hsr]
    simp [Account.recordTransferTo, Account.getAccountNumber]

/-! ## Claims about a single account operation -/

/-- C3, as stated, fails: a transfer of 1 from an account with balance 1 to an account
with balance `2 ^ 53` succeeds, and the receiver's balance afterwards is still `2 ^ 53`,
not `2 ^ 53 + 1`, which is not a double. -/
theorem transfer_exact_counterexample :
    0 < Double.whole 1 ∧
    Double.whole 1 ≤ (Account.mk 1001 (Double.whole 1) []).balance ∧
    ((Account.mk 1001 (Double.whole 1) []).transfer
        (Account.mk 1002 (Double.whole (2 ^ 53)) []) (Double.whole 1)).1 = true ∧
    Double.whole (2 ^ 53) = Double.finite (Double.units (2 ^ 53)) ∧
    Double.whole 1 = Double.finite (Double.units 1) ∧
    ((Account.mk 1001 (Double.whole 1) []).transfer
        (Account.mk 1002 (Double.whole (2 ^ 53)) []) (Double.whole 1)).2.2.1.balance =
      Double.whole (2 ^ 53) ∧
    ((Account.mk 1001 (Double.whole 1) []).transfer
        (Account.mk 1002 (Double.whole (2 ^ 53)) []) (Double.whole 1)).2.2.1.balance ≠
      Double.finite (Double.units (2 ^ 53) + Double.units 1) := by
  decide

/-- C3, amended: for two distinct account objects `x` and `y` and a positive amount `a`
that does not exceed the balance of `x`, `Account::transfer` from `x` to `y` returns
`true` and leaves `x` with balance `x.balance - a` and `y` with balance `y.balance + a` as
the double arithmetic of the code gives them, each rounded to the nearest double; they
are exactly the difference and the sum whenever these are doubles. -/
theorem transfer_moves_amount (x y : Account) (a : Double)
    (hpos : 0 < a) (hle : a ≤ x.balance) :
    (x.transfer y a).1 = true ∧
    (x.transfer y a).2.1.balance = x.balance - a ∧
    (x.transfer y a).2.2.1.balance = y.balance + a ∧
    (∀ m n, x.balance = Double.finite m → a = Double.finite n →
      Double.ofInt (m - n) = Double.finite (m - n) →
      (x.transfer y a).2.1.balance = Double.finite (m - n)) ∧
    (∀ k n, y.balance = Double.finite k → a = Double.finite n →
      Double.ofInt (k + n) = Double.finite (k + n) →
      (x.transfer y a).2.2.1.balance = Double.finite (k + n)) := by
  rw [transfer_accepted x y a (guard_of_pos_le hpos hle)]
  refine ⟨rfl, rfl, rfl, ?_, ?_⟩
  · intro m n hm hn hex
    show x.balance - a = _
    rw [hm, hn, ← hex]
    rfl
  · intro k n hk hn hex
    show y.balance + a = _
    rw [hk, hn, ← hex]
    rfl

theorem transfer_moves_amount_witness :
    ((Account.mk 1001 (Double.whole 300) []).transfer (Account.mk 1002 (Double.whole 0) [])
        (Double.whole 100)).1 = true ∧
    ((Account.mk 1001 (Double.whole 300) []).transfer (Account.mk 1002 (Double.whole 0) [])
        (Double.whole 100)).2.1.balance =
      (Account.mk 1001 (Double.whole 300) []).balance - Double.whole 100 ∧
    ((Account.mk 1001 (Double.whole 300) []).transfer (Account.mk 1002 (Double.whole 0) [])
        (Double.whole 100)).2.2.1.balance =
      (Account.mk 1002 (Double.whole 0) []).balance + Double.whole 100 :=
  ⟨(transfer_moves_amount (Account.mk 1001 (Double.whole 300) [])
      (Account.mk 1002 (Double.whole 0) []) (Double.whole 100) (by decide) (by decide)).1,
   (transfer_moves_amount (Account.mk 1001 (Double.whole 300) [])
      (Account.mk 1002 (Double.whole 0) []) (Double.whole 100) (by decide) (by decide)).2.1,
   (transfer_moves_amount (Account.mk 1001 (Double.whole 300) [])
      (Account.mk 1002 (Double.whole 0) []) (Double.whole 100) (by decide)
      (by decide)).2.2.1⟩

/-- C4, as stated, fails: a successful transfer of 100 out of an account with balance 300
and an empty history leaves the sender with two new records, not one. -/
theorem transfer_history_counterexample :
    Double.whole 100 ≤ (Account.mk 1001 (Double.whole 300) []).balance ∧
    ((Account.mk 1001 (Double.whole 300) []).transfer (Account.mk 1002 (Double.whole 0) [])
        (Double.whole 100)).1 = true ∧
    ((Account.mk 1001 (Double.whole 300) []).transfer (Account.mk 1002 (Double.whole 0) [])
        (Double.whole 100)).2.1.transactions.length ≠
      (Account.mk 1001 (Double.whole 300) []).transactions.length + 1 := by
  decide

/-- C4, amended: whenever `Account::transfer` from `x` to a distinct account `y` returns
`true`, the history of the sender has grown by exactly two entries (the record written by
`withdraw` and the record written by `transfer` itself) and the history of the receiver
by exactly one. -/
theorem transfer_history_growth (x y : Account) (a : Double)
    (hok : (x.transfer y a).1 = true) :
    (x.transfer y a).2.1.transactions.length = x.transactions.length + 2 ∧
    (x.transfer y a).2.2.1.transactions.length = y.transactions.length + 1 := by
  rw [transfer_flag, withdraw_flag] at hok
  rw [transfer_accepted x y a hok]
  simp

theorem transfer_history_growth_witness :
    ((Account.mk 1001 (Double.whole 300) []).transfer (Account.mk 1002 (Double.whole 0) [])
        (Double.whole 100)).2.1.transactions.length =
      (Account.mk 1001 (Double.whole 300) []).transactions.length + 2 ∧
    ((Account.mk 1001 (Double.whole 300) []).transfer (Account.mk 1002 (Double.whole 0) [])
        (Double.whole 100)).2.2.1.transactions.length =
      (Account.mk 1002 (Double.whole 0) []).transactions.length + 1 :=
  transfer_history_growth (Account.mk 1001 (Double.whole 300) [])
    (Account.mk 1002 (Double.whole 0) []) (Double.whole 100) (by decide)

/-- C5: `Account::transfer` returns `false` exactly when `withdraw` of the same amount on
the source does, that is exactly when the amount is not positive or exceeds the balance of
the source; and whenever it returns `false`, the source and the target account are both
exactly as before (balance and history), so no deposit reached the target. -/
theorem transfer_failure (x y : Account) (a : Double) :
    ((x.transfer y a).1 = false ↔ (x.withdraw a).1 = false) ∧
    ((x.transfer y a).1 = false ↔ (a ≤ 0 ∨ a > x.balance)) ∧
    ((x.transfer y a).1 = false →
      (x.transfer y a).2.1 = x ∧ (x.transfer y a).2.2.1 = y) := by
  have hflag : (x.transfer y a).1 = false ↔ (a ≤ 0 ∨ a > x.balance) := by
    have h := withdraw_flag x a
    rw [← transfer_flag x y a] at h
    constructor
    · intro hf
      by_contra hcon
      have : (x.transfer y a).1 = true := h.2 hcon
      rw [hf] at this
      exact Bool.false_ne_true this
    · intro hc
      cases hv : (x.transfer y a).1
      · rfl
      · exact absurd hc (h.1 hv)
  refine ⟨by rw [transfer_flag], hflag, ?_⟩
  intro hf
  rw [transfer_rejected x y a (hflag.1 hf)]
  exact ⟨rfl, rfl⟩

theorem transfer_failure_witness :
    ((Account.mk 1001 (Double.whole 300) []).transfer (Account.mk 1002 (Double.whole 50) [])
        (Double.whole 301)).2.1 =
      Account.mk 1001 (Double.whole 300) [] ∧
    ((Account.mk 1001 (Double.whole 300) []).transfer (Account.mk 1002 (Double.whole 50) [])
        (Double.whole 301)).2.2.1 =
      Account.mk 1002 (Double.whole 50) [] :=
  (transfer_failure (Account.mk 1001 (Double.whole 300) [])
    (Account.mk 1002 (Double.whole 50) []) (Double.whole 301)).2.2 (by decide)

/-- C6, as stated, fails: depositing 1 into an account with balance `2 ^ 53` is accepted
and writes its record, but the balance afterwards is still `2 ^ 53`, not `2 ^ 53 + 1`,
which is not a double. -/
theorem deposit_exact_counterexample :
    0 < Double.whole 1 ∧
    Double.whole (2 ^ 53) = Double.finite (Double.units (2 ^ 53)) ∧
    Double.whole 1 = Double.finite (Double.units 1) ∧
    ((Account.mk 1001 (Double.whole (2 ^ 53)) []).deposit (Double.whole 1)).1.transactions =
      [Transaction.mk "Deposit" (Double.whole 1)] ∧
    ((Account.mk 1001 (Double.whole (2 ^ 53)) []).deposit (Double.whole 1)).1.balance =
      Double.whole (2 ^ 53) ∧
    ((Account.mk 1001 (Double.whole (2 ^ 53)) []).deposit (Double.whole 1)).1.balance ≠
      Double.finite (Double.units (2 ^ 53) + Double.units 1) := by
  decide

/-- C6, amended: `Account::deposit` with an amount that is not positive leaves the account
(balance and history) unchanged; with a positive amount, whatever the balance is, the
balance becomes `balance + amount` as the double arithmetic of the code gives it (rounded
to the nearest double, and exactly the sum whenever the sum is a double), and exactly one
record, of type `Deposit` with that amount, is appended at the end of the history. -/
theorem deposit_effect (acc : Account) (amount : Double) :
    (amount ≤ 0 →
      (acc.deposit amount).1 = acc ∧
      (acc.deposit amount).1.balance = acc.balance ∧
      (acc.deposit amount).1.transactions.length = acc.transactions.length) ∧
    (0 < amount →
      (acc.deposit amount).1.balance = acc.balance + amount ∧
      (acc.deposit amount).1.transactions =
        acc.transactions ++ [Transaction.mk "Deposit" amount] ∧
      (acc.deposit amount).1.transactions.length = acc.transactions.length + 1 ∧
      (acc.deposit amount).2 = ["Deposit successful.\n"]) ∧
    (0 < amount → ∀ m n, acc.balance = Double.finite m → amount = Double.finite n →
      Double.ofInt (m + n) = Double.finite (m + n) →
      (acc.deposit amount).1.balance = Double.finite (m + n)) := by
  refine ⟨?_, ?_, ?_⟩
  · intro h
    rw [deposit_nonpos acc amount h]
    exact ⟨rfl, rfl, rfl⟩
  · intro h
    rw [deposit_pos acc amount (Double.pos_not_le_zero h)]
    simp
  · intro h m n hm hn hex
    rw [deposit_pos acc amount (Double.pos_not_le_zero h)]
    show acc.balance + amount = _
    rw [hm, hn, ← hex]
    rfl

theorem deposit_effect_witness :
    ((Account.mk 1001 (Double.whole 40) []).deposit (Double.whole (-5))).1 =
      Account.mk 1001 (Double.whole 40) [] ∧
    ((Account.mk 1001 (Double.whole 40) []).deposit (Double.whole 500)).1.balance =
      (Account.mk 1001 (Double.whole 40) []).balance + Double.whole 500 ∧
    ((Account.mk 1001 (Double.whole 40) []).deposit (Double.whole 500)).1.balance =
      Double.finite (Double.units 40 + Double.units 500) :=
  ⟨((deposit_effect (Account.mk 1001 (Double.whole 40) []) (Double.whole (-5))).1
      (by decide)).1,
   ((deposit_effect (Account.mk 1001 (Double.whole 40) []) (Double.whole 500)).2.1
      (by decide)).1,
   (deposit_effect (Account.mk 1001 (Double.whole 40) []) (Double.whole 500)).2.2
      (by decide) (Double.units 40) (Double.units 500) (by decide) (by decide) (by decide)⟩

/-- C7: `Account::withdraw` with an amount strictly greater than the balance returns
`false`, prints `Insufficient Funds.`, and leaves the account unchanged, in particular its
balance and the length of its history. -/
theorem withdraw_over_balance (acc : Account) (amount : Double)
    (h : amount > acc.balance) :
    (acc.withdraw amount).1 = false ∧
    (acc.withdraw amount).2.2 = ["Insufficient Funds.\n"] ∧
    (acc.withdraw amount).2.1 = acc ∧
    (acc.withdraw amount).2.1.balance = acc.balance ∧
    (acc.withdraw amount).2.1.transactions.length = acc.transactions.length := by
  rw [withdraw_rejected acc amount (Or.inr h)]
  exact ⟨rfl, rfl, rfl, rfl, rfl⟩

theorem withdraw_over_balance_witness :
    Double.whole 301 > (Account.mk 1001 (Double.whole 300) []).balance ∧
    ((Account.mk 1001 (Double.whole 300) []).withdraw (Double.whole 301)).1 = false ∧
    ((Account.mk 1001 (Double.whole 300) []).withdraw (Double.whole 301)).2.2 =
      ["Insufficient Funds.\n"] ∧
    ((Account.mk 1001 (Double.whole 300) []).withdraw (Double.whole 301)).2.1 =
      Account.mk 1001 (Double.whole 300) [] ∧
    ((Account.mk 1001 (Double.whole 300) []).withdraw (Double.whole 301)).2.1.balance =
      (Account.mk 1001 (Double.whole 300) []).balance ∧
    ((Account.mk 1001 (Double.whole 300) []).withdraw
        (Double.whole 301)).2.1.transactions.length =
      (Account.mk 1001 (Double.whole 300) []).transactions.length :=
  ⟨by decide,
   withdraw_over_balance (Account.mk 1001 (Double.whole 300) []) (Double.whole 301)
     (by decide)⟩

/-- C8, as stated, fails in three ways. Withdrawing 1 from balance `2 ^ 54` returns `true`
and leaves the balance at `2 ^ 54`, not `2 ^ 54 - 1`, which is not a double. With NaN for
the amount, or for the balance, `withdraw` returns `true` although `0 < a ≤ b` is false.
Withdrawing an infinite balance in full returns `true` and leaves NaN, not `0`. -/
theorem withdraw_exact_counterexample :
    (((Account.mk 1001 (Double.whole (2 ^ 54)) []).withdraw (Double.whole 1)).1 = true ∧
      Double.whole (2 ^ 54) = Double.finite (Double.units (2 ^ 54)) ∧
      Double.whole 1 = Double.finite (Double.units 1) ∧
      ((Account.mk 1001 (Double.whole (2 ^ 54)) []).withdraw (Double.whole 1)).2.1.balance =
        Double.whole (2 ^ 54) ∧
      ((Account.mk 1001 (Double.whole (2 ^ 54)) []).withdraw (Double.whole 1)).2.1.balance ≠
        Double.finite (Double.units (2 ^ 54) - Double.units 1)) ∧
    (((Account.mk 1001 (Double.whole 10) []).withdraw Double.nan).1 = true ∧
      ¬ (0 < Double.nan ∧ Double.nan ≤ (Account.mk 1001 (Double.whole 10) []).balance)) ∧
    (((Account.mk 1001 Double.nan []).withdraw (Double.whole 1)).1 = true ∧
      ¬ (0 < Double.whole 1 ∧ Double.whole 1 ≤ (Account.mk 1001 Double.nan []).balance)) ∧
    (((Account.mk 1001 Double.posInf []).withdraw Double.posInf).1 = true ∧
      ((Account.mk 1001 Double.posInf []).withdraw Double.posInf).2.1.balance = Double.nan) := by
  decide

/-- C8, amended: when neither the amount `a` nor the balance `b` is NaN,
`Account::withdraw` returns `true` exactly when `0 < a ≤ b`; when it returns `true` the
balance becomes `b - a` as the double arithmetic of the code gives it (rounded to the
nearest double, and exactly the difference whenever that is a double) and the history has
exactly one more record, appended at the end, of type `Withdrawal` with amount `a`.
Withdrawing the whole of a positive finite balance succeeds and leaves balance `0`. -/
theorem withdraw_effect (acc : Account) (a : Double) :
    (a ≠ Double.nan → acc.balance ≠ Double.nan →
      ((acc.withdraw a).1 = true ↔ (0 < a ∧ a ≤ acc.balance))) ∧
    ((acc.withdraw a).1 = true →
      (acc.withdraw a).2.1.balance = acc.balance - a ∧
      (acc.withdraw a).2.1.transactions =
        acc.transactions ++ [Transaction.mk "Withdrawal" a] ∧
      (acc.withdraw a).2.1.transactions.length = acc.transactions.length + 1) ∧
    ((acc.withdraw a).1 = true → ∀ m n, acc.balance = Double.finite m →
      a = Double.finite n → Double.ofInt (m - n) = Double.finite (m - n) →
      (acc.withdraw a).2.1.balance = Double.finite (m - n)) ∧
    (∀ m, acc.balance = Double.finite m → 0 < m →
      (acc.withdraw acc.balance).1 = true ∧ (acc.withdraw acc.balance).2.1.balance = 0) := by
  refine ⟨?_, ?_, ?_, ?_⟩
  · intro ha hb
    rw [withdraw_flag]
    exact ⟨pos_le_of_guard ha hb, fun h => guard_of_pos_le h.1 h.2⟩
  · intro hok
    rw [withdraw_accepted acc a ((withdraw_flag acc a).1 hok)]
    simp
  · intro hok m n hm hn hex
    rw [withdraw_accepted acc a ((withdraw_flag acc a).1 hok)]
    show acc.balance - a = _
    rw [hm, hn, ← hex]
    rfl
  · intro m hm hpos
    have hg : ¬ (acc.balance ≤ 0 ∨ acc.balance > acc.balance) := by
      rw [hm]
      apply guard_of_pos_le
      · rw [Double.zero_eq, Double.finite_lt_finite]
        exact hpos
      · rw [Double.finite_le_finite]
    rw [withdraw_accepted acc acc.balance hg]
    refine ⟨rfl, ?_⟩
    show acc.balance - acc.balance = 0
    rw [hm]
    show Double.ofInt (m - m) = 0
    rw [Int.sub_self]
    exact Double.ofInt_zero

theorem withdraw_effect_witness :
    (((Account.mk 1001 (Double.whole 500) []).withdraw (Double.whole 200)).1 = true ↔
      (0 < Double.whole 200 ∧
        Double.whole 200 ≤ (Account.mk 1001 (Double.whole 500) []).balance)) ∧
    ((Account.mk 1001 (Double.whole 500) []).withdraw (Double.whole 200)).2.1.balance =
      (Account.mk 1001 (Double.whole 500) []).balance - Double.whole 200 ∧
    ((Account.mk 1001 (Double.whole 500) []).withdraw (Double.whole 200)).2.1.balance =
      Double.finite (Double.units 500 - Double.units 200) ∧
    ((Account.mk 1001 (Double.whole 500) []).withdraw
        (Account.mk 1001 (Double.whole 500) []).balance).2.1.balance = 0 :=
  ⟨(withdraw_effect (Account.mk 1001 (Double.whole 500) []) (Double.whole 200)).1
      (by decide) (by decide),
   ((withdraw_effect (Account.mk 1001 (Double.whole 500) []) (Double.whole 200)).2.1
      (by decide)).1,
   (withdraw_effect (Account.mk 1001 (Double.whole 500) []) (Double.whole 200)).2.2.1
      (by decide) (Double.units 500) (Double.units 200) (by decide) (by decide) (by decide),
   ((withdraw_effect (Account.mk 1001 (Double.whole 500) []) (Double.whole 200)).2.2.2
      (Double.units 500) (by decide) (by decide)).2⟩

/-- C9, as stated, fails: on an account with balance 10, withdrawing -5 (not positive) and
withdrawing 20 (more than the balance) give the very same result: `false`, the account
unchanged, and the one message `Insufficient Funds.`. -/
theorem withdraw_report_counterexample :
    Double.whole (-5) ≤ 0 ∧
    Double.whole 20 > (Account.mk 1001 (Double.whole 10) []).balance ∧
    (Account.mk 1001 (Double.whole 10) []).withdraw (Double.whole (-5)) =
      (false, Account.mk 1001 (Double.whole 10) [], ["Insufficient Funds.\n"]) ∧
    (Account.mk 1001 (Double.whole 10) []).withdraw (Double.whole (-5)) =
      (Account.mk 1001 (Double.whole 10) []).withdraw (Double.whole 20) := by
  decide

/-- C9, amended: `Account::withdraw` with an amount that is not positive returns `false`,
leaves the account unchanged and prints `Insufficient Funds.`; this is the same result as
for any amount above the balance, so the caller cannot tell the two causes apart. -/
theorem withdraw_nonpos (acc : Account) (amount : Double) (h : amount ≤ 0) :
    acc.withdraw amount = (false, acc, ["Insufficient Funds.\n"]) ∧
    ∀ other : Double, other > acc.balance → acc.withdraw amount = acc.withdraw other := by
  refine ⟨withdraw_rejected acc amount (Or.inl h), ?_⟩
  intro other ho
  rw [withdraw_rejected acc amount (Or.inl h), withdraw_rejected acc other (Or.inr ho)]

theorem withdraw_nonpos_witness :
    (Account.mk 1001 (Double.whole 10) []).withdraw (Double.whole 0) =
      (false, Account.mk 1001 (Double.whole 10) [], ["Insufficient Funds.\n"]) :=
  (withdraw_nonpos (Account.mk 1001 (Double.whole 10) []) (Double.whole 0) (by decide)).1

/-! ## Claims about the states the program reaches -/

/-- C1, as stated, fails, in two ways. After creating two customers, depositing 500 for
the first and transferring 100 from the first to the second, the first account has balance
400, while its credit records add up to 500 and its debit records (the `Withdrawal` record
and the `Transfer to 1002` record of the one transfer) add up to 200. And after deposits
of `2 ^ 53` and 1, a withdrawal of `2 ^ 52` and a deposit of 1, the balance is
`2 ^ 52 + 1`, while the `Deposit` records minus the `Withdrawal` record add up to
`2 ^ 52 + 2`: the second deposit was rounded away. -/
theorem balance_history_counterexample :
    ((BankSystem.run
        [Op.createCustomer "John Smith" "john1", Op.deposit "john1" (Double.units 500),
         Op.createCustomer "Mary Ann" "mary2",
         Op.transfer "john1" "mary2" (Double.units 100)]).customers =
      [Customer.mk "John Smith" "john1" 1
         (Account.mk 1001 (Double.whole 400)
           [Transaction.mk "Deposit" (Double.whole 500),
            Transaction.mk "Withdrawal" (Double.whole 100),
            Transaction.mk "Transfer to 1002" (Double.whole 100)]),
       Customer.mk "Mary Ann" "mary2" 2
         (Account.mk 1002 (Double.whole 100)
           [Transaction.mk "Deposit" (Double.whole 100)])] ∧
     sumWhere isCredit
        [Transaction.mk "Deposit" (Double.whole 500),
         Transaction.mk "Withdrawal" (Double.whole 100),
         Transaction.mk "Transfer to 1002" (Double.whole 100)] = Double.units 500 ∧
     sumWhere isDebit
        [Transaction.mk "Deposit" (Double.whole 500),
         Transaction.mk "Withdrawal" (Double.whole 100),
         Transaction.mk "Transfer to 1002" (Double.whole 100)] = Double.units 200 ∧
     Double.whole 400 ≠ Double.finite (Double.units 500 - Double.units 200)) ∧
    ((BankSystem.run
        [Op.createCustomer "John Smith" "john1", Op.deposit "john1" (Double.units (2 ^ 53)),
         Op.deposit "john1" (Double.units 1), Op.withdraw "john1" (Double.units (2 ^ 52)),
         Op.deposit "john1" (Double.units 1)]).customers =
      [Customer.mk "John Smith" "john1" 1
         (Account.mk 1001 (Double.whole (2 ^ 52 + 1))
           [Transaction.mk "Deposit" (Double.whole (2 ^ 53)),
            Transaction.mk "Deposit" (Double.whole 1),
            Transaction.mk "Withdrawal" (Double.whole (2 ^ 52)),
            Transaction.mk "Deposit" (Double.whole 1)])] ∧
     sumWhere isCredit
          [Transaction.mk "Deposit" (Double.whole (2 ^ 53)),
           Transaction.mk "Deposit" (Double.whole 1),
           Transaction.mk "Withdrawal" (Double.whole (2 ^ 52)),
           Transaction.mk "Deposit" (Double.whole 1)] -
        sumWhere isDebit
          [Transaction.mk "Deposit" (Double.whole (2 ^ 53)),
           Transaction.mk "Deposit" (Double.whole 1),
           Transaction.mk "Withdrawal" (Double.whole (2 ^ 52)),
           Transaction.mk "Deposit" (Double.whole 1)] = Double.units (2 ^ 52 + 2) ∧
     Double.whole (2 ^ 52 + 1) ≠ Double.finite (Double.units (2 ^ 52 + 2))) := by
  decide

/-- C1, amended: in every state reached from the empty registry by createCustomer,
deposit, withdraw and transfer rounds, the balance of every account equals the net effect
of the records of its history taken in order in the double arithmetic of the code:
starting from 0, each `Deposit` record (deposits and incoming transfers) adds its amount
and each `Withdrawal` record subtracts its amount, every result rounded to a double;
`Transfer to` records are not counted. -/
theorem balance_matches_history (ops : List Op) (c : Customer)
    (hc : c ∈ (BankSystem.run ops).customers) :
    c.account.balance = replay c.account.transactions :=
  run_preserved balanced_preserved ops c hc

theorem balance_matches_history_witness :
    Double.whole (2 ^ 52 + 1) =
      replay
        [Transaction.mk "Deposit" (Double.whole (2 ^ 53)),
         Transaction.mk "Deposit" (Double.whole 1),
         Transaction.mk "Withdrawal" (Double.whole (2 ^ 52)),
         Transaction.mk "Deposit" (Double.whole 1)] :=
  balance_matches_history
    [Op.createCustomer "John Smith" "john1", Op.deposit "john1" (Double.units (2 ^ 53)),
     Op.deposit "john1" (Double.units 1), Op.withdraw "john1" (Double.units (2 ^ 52)),
     Op.deposit "john1" (Double.units 1)]
    (Customer.mk "John Smith" "john1" 1
      (Account.mk 1001 (Double.whole (2 ^ 52 + 1))
        [Transaction.mk "Deposit" (Double.whole (2 ^ 53)),
         Transaction.mk "Deposit" (Double.whole 1),
         Transaction.mk "Withdrawal" (Double.whole (2 ^ 52)),
         Transaction.mk "Deposit" (Double.whole 1)]))
    (by decide)

/-- C2: in every state reached from the empty registry by createCustomer, deposit,
withdraw and transfer rounds with arbitrary amounts, the balance of every account is at
least 0. -/
theorem balance_nonneg (ops : List Op) (c : Customer)
    (hc : c ∈ (BankSystem.run ops).customers) : 0 ≤ c.account.balance :=
  run_preserved nonneg_preserved ops c hc

theorem balance_nonneg_witness :
    (0 : Double) ≤
      (Customer.mk "John Smith" "john1" 1 (Account.mk 1001 0 [])).account.balance :=
  balance_nonneg
    [Op.createCustomer "John Smith" "john1", Op.deposit "john1" (Double.units (-7)),
     Op.withdraw "john1" (Double.units 9), Op.transfer "john1" "john1" (Double.units 3)]
    (Customer.mk "John Smith" "john1" 1 (Account.mk 1001 0 []))
    (by decide)

/-- C10: in every state the program can reach, a createCustomer pass with a valid name
and an id equal, character for character, to the id of a customer already in the registry
is rejected with `Customer ID already exists.`, and the registry afterwards is the one
before: same customers, same count, same serial counter. -/
theorem createCustomer_duplicate (bs : BankSystem) (hr : Reachable bs) (name id : String)
    (hn : isValidName name = true) (c : Customer) (hc : c ∈ bs.customers)
    (hid : c.id = id) :
    (bs.createCustomer name id).2 = ["Customer ID already exists. Try different.\n"] ∧
    (bs.createCustomer name id).1 = bs ∧
    (bs.createCustomer name id).1.customers.length = bs.customers.length ∧
    (bs.createCustomer name id).1.serialCounter = bs.serialCounter := by
  obtain ⟨ops, rfl⟩ := hr
  have hv : isValidCustomerID id = true := hid ▸ run_preserved validID_preserved ops c hc
  have hf : ((BankSystem.run ops).findCustomer id).isSome = true :=
    (findIn_isSome _ id).2 ⟨c, hc, hid⟩
  rw [createCustomer_existing _ name id hn hv hf]
  exact ⟨rfl, rfl, rfl, rfl⟩

theorem createCustomer_duplicate_witness :
    ((BankSystem.run [Op.createCustomer "John Smith" "john1"]).createCustomer
        "Mary Ann" "john1").1 =
      BankSystem.run [Op.createCustomer "John Smith" "john1"] :=
  (createCustomer_duplicate (BankSystem.run [Op.createCustomer "John Smith" "john1"])
    ⟨[Op.createCustomer "John Smith" "john1"], rfl⟩ "Mary Ann" "john1" (by decide)
    (Customer.mk "John Smith" "john1" 1 (Account.mk 1001 0 [])) (by decide) rfl).2.1

/-! ## Claims about looking customers up -/

theorem findIn_none (cs : List Customer) (id : String) :
    findIn cs id = none ↔ ∀ c ∈ cs, c.id ≠ id := by
  have h := findIn_isSome cs id
  cases hf : findIn cs id with
  | none =>
    rw [hf] at h
    simp only [Option.isSome_none, Bool.false_eq_true, false_iff, not_exists, not_and] at h
    simpa using h
  | some p =>
    rw [hf] at h
    have h2 := h.1 rfl
    simp only [reduceCtorEq, false_iff, not_forall]
    obtain ⟨c, hc, hid⟩ := h2
    exact ⟨c, hc, fun hne => hne hid⟩

theorem findIn_some (cs : List Customer) (id : String) (p : Nat)
    (h : findIn cs id = some p) :
    ∃ c, cs.get? p = some c ∧ c.id = id ∧
      ∀ q, q < p → ∀ d, cs.get? q = some d → d.id ≠ id := by
  induction cs generalizing p with
  | nil => simp [findIn] at h
  | cons e es ih =>
    by_cases he : e.getID = id
    · simp only [findIn, he, if_true, Option.some.injEq] at h
      subst h
      exact ⟨e, rfl, he, fun q hq => absurd hq (Nat.not_lt_zero q)⟩
    · simp only [findIn, he, if_false, Option.map_eq_some'] at h
      obtain ⟨p2, hp2, rfl⟩ := h
      obtain ⟨c, hc, hid, hfirst⟩ := ih p2 hp2
      refine ⟨c, hc, hid, ?_⟩
      intro q hq d hd
      cases q with
      | zero =>
        have : d = e := by
          have h0 : (e :: es).get? 0 = some e := rfl
          rw [h0] at hd
          exact (Option.some.inj hd).symm
        rw [this]
        exact he
      | succ q2 => exact hfirst q2 (by omega) d hd

/-- C14: `findCustomer(id)` returns not-found exactly when no customer of the registry has
an id equal to `id` under exact (case-sensitive) string equality; when it returns a
customer, that customer's id equals `id` and no customer before it in creation order has
that id. -/
theorem findCustomer_first_exact_match (bs : BankSystem) (id : String) :
    (bs.findCustomer id = none ↔ ∀ c ∈ bs.customers, c.id ≠ id) ∧
    (∀ p, bs.findCustomer id = some p →
      ∃ c, bs.customers.get? p = some c ∧ c.id = id ∧
        ∀ q, q < p → ∀ d, bs.customers.get? q = some d → d.id ≠ id) :=
  ⟨findIn_none bs.customers id, fun p h => findIn_some bs.customers id p h⟩

theorem findCustomer_first_exact_match_witness :
    (BankSystem.run [Op.createCustomer "John Smith" "john1",
        Op.createCustomer "John Smith" "John1"]).findCustomer "john1" = some 0 ∧
    (BankSystem.run [Op.createCustomer "John Smith" "john1",
        Op.createCustomer "John Smith" "John1"]).findCustomer "John1" = some 1 ∧
    (BankSystem.run [Op.createCustomer "John Smith" "john1",
        Op.createCustomer "John Smith" "John1"]).findCustomer "JOHN1" = none ∧
    ∃ c, (BankSystem.run [Op.createCustomer "John Smith" "john1",
        Op.createCustomer "John Smith" "John1"]).customers.get? 1 = some c ∧ c.id = "John1" ∧
      ∀ q, q < 1 → ∀ d, (BankSystem.run [Op.createCustomer "John Smith" "john1",
        Op.createCustomer "John Smith" "John1"]).customers.get? q = some d → d.id ≠ "John1" :=
  ⟨by decide, by decide, by decide,
   (findCustomer_first_exact_match
      (BankSystem.run [Op.createCustomer "John Smith" "john1",
        Op.createCustomer "John Smith" "John1"]) "John1").2 1 (by decide)⟩

theorem missing_customer_transfer (bs : BankSystem) (fromID toID : String) (amount : Int)
    (h : bs.findCustomer fromID = none ∨ bs.findCustomer toID = none) :
    bs.transfer fromID toID amount = (bs, ["One or both customers not found.\n"]) := by
  unfold BankSystem.transfer
  rcases h with h | h
  · rw [h]
  · rw [h]
    cases bs.findCustomer fromID <;> rfl

/-- C15: when `id` resolves to no customer, registry-level deposit and withdraw print
`Customer not found.` and leave the whole registry as it was; when `fromID` or `toID` (or
both) resolves to no customer, registry-level transfer prints
`One or both customers not found.` and leaves the whole registry as it was, also when the
other side exists. No message of an account operation is printed in these cases. -/
theorem missing_customer_no_effect (bs : BankSystem) (amount : Int) :
    (∀ id, bs.findCustomer id = none →
      bs.deposit id amount = (bs, ["Customer not found.\n"]) ∧
      bs.withdraw id amount = (bs, ["Customer not found.\n"])) ∧
    (∀ fromID toID, (bs.findCustomer fromID = none ∨ bs.findCustomer toID = none) →
      bs.transfer fromID toID amount = (bs, ["One or both customers not found.\n"])) := by
  constructor
  · intro id h
    simp [BankSystem.deposit, BankSystem.withdraw, h]
  · intro fromID toID h
    unfold BankSystem.transfer
    rcases h with h | h
    · rw [h]
    · rw [h]
      cases bs.findCustomer fromID <;> rfl

theorem missing_customer_no_effect_witness :
    (BankSystem.run [Op.createCustomer "John Smith" "john1",
        Op.deposit "john1" (Double.units 500)]).transfer "john1" "mary2" (Double.units 100) =
      (BankSystem.run [Op.createCustomer "John Smith" "john1",
        Op.deposit "john1" (Double.units 500)],
       ["One or both customers not found.\n"]) :=
  (missing_customer_no_effect
      (BankSystem.run [Op.createCustomer "John Smith" "john1",
        Op.deposit "john1" (Double.units 500)])
      (Double.units 100)).2 "john1" "mary2" (Or.inr (by decide))

/-! ## Claims about the records of a transfer -/

/-- C17: after a successful `Account::transfer` of `a` from `x` to a distinct account `y`,
the history of `x` is the old one followed by the `Withdrawal` record of the withdraw leg
and then one record `Transfer to <y.accNumber>` with amount `a`, which is the last entry and
the only transfer-style record added; the history of `y` is the old one followed by exactly
one record, `Deposit` with amount `a`, the very record an ordinary `deposit(a)` writes. -/
theorem transfer_records (x y : Account) (a : Double) (hok : (x.transfer y a).1 = true) :
    (x.transfer y a).2.1.transactions =
      x.transactions ++
        [Transaction.mk "Withdrawal" a,
         Transaction.mk ("Transfer to " ++ toString y.accNumber) a] ∧
    (x.transfer y a).2.1.transactions.getLast? =
      some (Transaction.mk ("Transfer to " ++ toString y.accNumber) a) ∧
    ([Transaction.mk "Withdrawal" a,
      Transaction.mk ("Transfer to " ++ toString y.accNumber) a].filter
        fun t => isTransferOut t.type) =
      [Transaction.mk ("Transfer to " ++ toString y.accNumber) a] ∧
    (x.transfer y a).2.2.1.transactions = y.transactions ++ [Transaction.mk "Deposit" a] ∧
    (x.transfer y a).2.2.1 = (y.deposit a).1 := by
  rw [transfer_flag, withdraw_flag] at hok
  rw [transfer_accepted x y a hok, deposit_pos y a (fun hc => hok (Or.inl hc))]
  refine ⟨rfl, by simp, ?_, rfl, rfl⟩
  have h1 : isTransferOut "Withdrawal" = false := by decide
  have h2 : isTransferOut ("Transfer to " ++ toString y.accNumber) = true := by
    simp [isTransferOut]
  simp [List.filter_cons, h1, h2]

theorem transfer_records_witness :
    ((Account.mk 1001 (Double.whole 300) []).transfer (Account.mk 1002 (Double.whole 0) [])
        (Double.whole 100)).2.1.transactions =
      (Account.mk 1001 (Double.whole 300) []).transactions ++
        [Transaction.mk "Withdrawal" (Double.whole 100),
         Transaction.mk
           ("Transfer to " ++ toString (Account.mk 1002 (Double.whole 0) []).accNumber)
           (Double.whole 100)] :=
  (transfer_records (Account.mk 1001 (Double.whole 300) [])
    (Account.mk 1002 (Double.whole 0) []) (Double.whole 100) (by decide)).1

/-! ## How an operation changes the registry -/

theorem getAccount_of_get? (bs : BankSystem) (p : Nat) (c : Customer)
    (h : bs.customers.get? p = some c) : bs.getAccount p = c.account := by
  unfold BankSystem.getAccount
  rw [h]
  rfl

theorem Account.Grows.accountRefl (a : Account) : a.Grows a :=
  ⟨rfl, [], by simp⟩

theorem Account.Grows.accountTrans {a b c : Account} (h1 : a.Grows b) (h2 : b.Grows c) :
    a.Grows c := by
  obtain ⟨e1, l1, t1⟩ := h1
  obtain ⟨e2, l2, t2⟩ := h2
  exact ⟨e2.trans e1, l1 ++ l2, by rw [t2, t1, List.append_assoc]⟩

theorem deposit_grows (a : Account) (amount : Double) : a.Grows (a.deposit amount).1 := by
  by_cases h : amount ≤ 0
  · rw [deposit_nonpos a amount h]
    exact Account.Grows.accountRefl a
  · rw [deposit_pos a amount h]
    exact ⟨rfl, _, rfl⟩

theorem withdraw_grows (a : Account) (amount : Double) :
    a.Grows (a.withdraw amount).2.1 := by
  by_cases h : amount ≤ 0 ∨ amount > a.balance
  · rw [withdraw_rejected a amount h]
    exact Account.Grows.accountRefl a
  · rw [withdraw_accepted a amount h]
    exact ⟨rfl, _, rfl⟩

theorem recordTransferTo_grows (a : Account) (n : Nat) (amount : Double) :
    a.Grows (a.recordTransferTo n amount) :=
  ⟨rfl, _, rfl⟩

theorem Customer.Grows.customerRefl (c : Customer) : c.Grows c :=
  ⟨rfl, rfl, rfl, Account.Grows.accountRefl c.account⟩

theorem Customer.Grows.customerTrans {a b c : Customer} (h1 : a.Grows b) (h2 : b.Grows c) :
    a.Grows c :=
  ⟨h2.1.trans h1.1, h2.2.1.trans h1.2.1, h2.2.2.1.trans h1.2.2.1,
   h1.2.2.2.accountTrans h2.2.2.2⟩

theorem BankSystem.Evolves.refl (t : List Nat) (bs : BankSystem) : bs.Evolves t bs :=
  ⟨rfl, rfl, fun _ c h => ⟨c, h, Customer.Grows.customerRefl c, fun _ => rfl⟩⟩

theorem BankSystem.Evolves.trans {t : List Nat} {a b c : BankSystem} (h1 : a.Evolves t b)
    (h2 : b.Evolves t c) : a.Evolves t c := by
  obtain ⟨c1, l1, p1⟩ := h1
  obtain ⟨c2, l2, p2⟩ := h2
  refine ⟨c2.trans c1, l2.trans l1, ?_⟩
  intro k x hx
  obtain ⟨y, hy, gxy, sxy⟩ := p1 k x hx
  obtain ⟨z, hz, gyz, syz⟩ := p2 k y hy
  refine ⟨z, hz, gxy.customerTrans gyz, fun hk => ?_⟩
  rw [syz hk, sxy hk]

theorem BankSystem.Evolves.mono {t t2 : List Nat} {a b : BankSystem} (h : a.Evolves t b)
    (ht : ∀ k, k ∈ t → k ∈ t2) : a.Evolves t2 b := by
  obtain ⟨c1, l1, p1⟩ := h
  refine ⟨c1, l1, ?_⟩
  intro k x hx
  obtain ⟨y, hy, gxy, sxy⟩ := p1 k x hx
  exact ⟨y, hy, gxy, fun hk => sxy (fun hin => hk (ht k hin))⟩

theorem setAccount_evolves (bs : BankSystem) (p : Nat) (a : Account)
    (h : (bs.getAccount p).Grows a) : bs.Evolves [p] (bs.setAccount p a) := by
  refine ⟨rfl, length_setAccountIn _ _ _, ?_⟩
  intro k c hc
  by_cases hk : p = k
  · subst hk
    refine ⟨{ c with account := a }, ?_, ?_, ?_⟩
    · show (setAccountIn bs.customers p a).get? p = _
      rw [get?_setAccountIn_same, hc]
      rfl
    · rw [getAccount_of_get? bs p c hc] at h
      exact ⟨rfl, rfl, rfl, h⟩
    · intro hn
      exact absurd (List.mem_singleton.2 rfl) hn
  · refine ⟨c, ?_, Customer.Grows.customerRefl c, fun _ => rfl⟩
    show (setAccountIn bs.customers p a).get? k = _
    rw [get?_setAccountIn_ne _ p k a hk, hc]

theorem deposit_evolves (bs : BankSystem) (id : String) (amount : Int) :
    bs.Evolves (bs.findCustomer id).toList (bs.deposit id amount).1 := by
  unfold BankSystem.deposit
  cases bs.findCustomer id with
  | none => exact BankSystem.Evolves.refl _ bs
  | some p => exact setAccount_evolves bs p _ (deposit_grows _ (Double.read amount))

theorem withdraw_evolves (bs : BankSystem) (id : String) (amount : Int) :
    bs.Evolves (bs.findCustomer id).toList (bs.withdraw id amount).1 := by
  unfold BankSystem.withdraw
  cases bs.findCustomer id with
  | none => exact BankSystem.Evolves.refl _ bs
  | some p => exact setAccount_evolves bs p _ (withdraw_grows _ (Double.read amount))

theorem accountTransfer_evolves (bs : BankSystem) (s r : Nat) (amount : Double) :
    bs.Evolves [s, r] (bs.accountTransfer s r amount).2.1 := by
  have hg := withdraw_grows (bs.getAccount s) amount
  have hs : ∀ k, k ∈ [s] → k ∈ [s, r] := fun k hk => by
    rw [List.mem_singleton.1 hk]
    exact List.mem_cons_self _ _
  have hr : ∀ k, k ∈ [r] → k ∈ [s, r] := fun k hk => by
    rw [List.mem_singleton.1 hk]
    exact List.mem_cons_of_mem _ (List.mem_cons_self _ _)
  unfold BankSystem.accountTransfer
  rcases hres : (bs.getAccount s).withdraw amount with ⟨ok, a1, out1⟩
  rw [hres] at hg
  cases ok with
  | false => exact (setAccount_evolves bs s a1 hg).mono hs
  | true =>
    have e1 := (setAccount_evolves bs s a1 hg).mono hs
    have e2 := (setAccount_evolves (bs.setAccount s a1) r _
      (deposit_grows ((bs.setAccount s a1).getAccount r) amount)).mono hr
    have e3 := (setAccount_evolves _ s _
      (recordTransferTo_grows
        (((bs.setAccount s a1).setAccount r
          (((bs.setAccount s a1).getAccount r).deposit amount).1).getAccount s)
        (((bs.setAccount s a1).setAccount r
          (((bs.setAccount s a1).getAccount r).deposit amount).1).getAccount r).getAccountNumber
        amount)).mono hs
    exact (e1.trans e2).trans e3

theorem transfer_evolves (bs : BankSystem) (fromID toID : String) (amount : Int) :
    bs.Evolves ((bs.findCustomer fromID).toList ++ (bs.findCustomer toID).toList)
      (bs.transfer fromID toID amount).1 := by
  have ht := fun s r => accountTransfer_evolves bs s r (Double.read amount)
  unfold BankSystem.transfer
  cases bs.findCustomer fromID with
  | none => exact BankSystem.Evolves.refl _ bs
  | some s =>
    cases bs.findCustomer toID with
    | none => exact BankSystem.Evolves.refl _ bs
    | some r =>
      have hsr := ht s r
      dsimp only
      rcases hres : bs.accountTransfer s r (Double.read amount) with ⟨ok, bs1, out⟩
      rw [hres] at hsr
      cases ok <;> exact hsr

theorem BankSystem.Evolves.sameExcept {t : List Nat} {a b : BankSystem} (h : a.Evolves t b) :
    a.SameExcept t b := by
  obtain ⟨c1, l1, p1⟩ := h
  refine ⟨c1, ?_, ?_⟩
  · have hmap : ∀ (l : List Customer) (k : Nat),
        (l.map Customer.identity).get? k = (l.get? k).map Customer.identity := by
      intro l k
      simp
    apply List.ext_get?
    intro k
    rw [hmap, hmap]
    cases hk : a.customers.get? k with
    | none =>
      have : b.customers.get? k = none := by
        rw [List.get?_eq_none] at hk ⊢
        omega
      rw [this]
    | some x =>
      obtain ⟨y, hy, gxy, _⟩ := p1 k x hk
      rw [hy]
      simp only [Option.map_some', Customer.identity]
      rw [gxy.1, gxy.2.1, gxy.2.2.1, gxy.2.2.2.1]
  · intro k hk
    cases hx : a.customers.get? k with
    | none =>
      rw [List.get?_eq_none] at hx ⊢
      omega
    | some x =>
      obtain ⟨y, hy, _, sxy⟩ := p1 k x hx
      rw [hy, sxy hk]

theorem get?_lt {α : Type} {l : List α} {k : Nat} {x : α} (h : l.get? k = some x) :
    k < l.length := by
  by_contra hk
  rw [List.get?_len_le (by omega)] at h
  exact Option.noConfusion h

theorem get?_append_of_lt {α : Type} (l1 l2 : List α) (k : Nat) (h : k < l1.length) :
    (l1 ++ l2).get? k = l1.get? k := by
  simp [List.getElem?_append_left h]

theorem step_cases (bs : BankSystem) (op : Op) :
    (∃ touched, bs.Evolves touched (bs.step op)) ∨
    (∃ name id, op = Op.createCustomer name id ∧ isValidName name = true ∧
      isValidCustomerID id = true ∧ bs.findCustomer id = none ∧
      bs.step op =
        { customers := bs.customers ++ [Customer.new name id bs.serialCounter]
          serialCounter := bs.serialCounter + 1 }) := by
  cases op with
  | deposit id amount => exact Or.inl ⟨_, deposit_evolves bs id amount⟩
  | withdraw id amount => exact Or.inl ⟨_, withdraw_evolves bs id amount⟩
  | transfer fromID toID amount => exact Or.inl ⟨_, transfer_evolves bs fromID toID amount⟩
  | createCustomer name id =>
    show (∃ touched, bs.Evolves touched (bs.createCustomer name id).1) ∨
      (∃ name2 id2, Op.createCustomer name id = Op.createCustomer name2 id2 ∧
        isValidName name2 = true ∧ isValidCustomerID id2 = true ∧
        bs.findCustomer id2 = none ∧
        (bs.createCustomer name id).1 =
          { customers := bs.customers ++ [Customer.new name2 id2 bs.serialCounter]
            serialCounter := bs.serialCounter + 1 })
    cases h1 : isValidName name with
    | false =>
      rw [createCustomer_invalidName bs name id h1]
      exact Or.inl ⟨[], BankSystem.Evolves.refl _ bs⟩
    | true =>
      cases h2 : isValidCustomerID id with
      | false =>
        rw [createCustomer_invalidID bs name id h1 h2]
        exact Or.inl ⟨[], BankSystem.Evolves.refl _ bs⟩
      | true =>
        cases h3 : (bs.findCustomer id).isSome with
        | true =>
          rw [createCustomer_existing bs name id h1 h2 h3]
          exact Or.inl ⟨[], BankSystem.Evolves.refl _ bs⟩
        | false =>
          rw [createCustomer_created bs name id h1 h2 h3]
          refine Or.inr ⟨name, id, rfl, h1, h2, ?_, rfl⟩
          cases hf : bs.findCustomer id with
          | none => rfl
          | some p => rw [hf] at h3; exact absurd h3 (by simp)

theorem run_induction (I : BankSystem → Prop) (h0 : I BankSystem.init)
    (hstep : ∀ bs op, I bs → I (bs.step op)) (ops : List Op) : I (BankSystem.run ops) := by
  have h : ∀ (l : List Op) (bs : BankSystem), I bs → I (l.foldl BankSystem.step bs) := by
    intro l
    induction l with
    | nil => exact fun _ h => h
    | cons op rest ih => exact fun bs h => ih (bs.step op) (hstep bs op h)
  exact h ops BankSystem.init h0

theorem step_extends (bs : BankSystem) (op : Op) (k : Nat) (c : Customer)
    (hc : bs.customers.get? k = some c) :
    ∃ c2, (bs.step op).customers.get? k = some c2 ∧ c.Grows c2 := by
  rcases step_cases bs op with ⟨t, he⟩ | ⟨name, id, _, _, _, _, hs⟩
  · obtain ⟨c2, h2, hg, _⟩ := he.2.2 k c hc
    exact ⟨c2, h2, hg⟩
  · rw [hs]
    refine ⟨c, ?_, Customer.Grows.customerRefl c⟩
    show (bs.customers ++ [Customer.new name id bs.serialCounter]).get? k = some c
    rw [get?_append_of_lt _ _ k (get?_lt hc), hc]

/-! ## Claims about what an operation leaves alone -/

/-- C18: in every state reached from the empty registry by createCustomer, deposit,
withdraw and transfer rounds with arbitrary amounts, every record of every history has a
positive amount; and whatever round comes next, every customer stays at its position and
its new history is its previous history followed by zero or more added records. -/
theorem histories_append_only (ops : List Op) :
    (∀ c ∈ (BankSystem.run ops).customers, ∀ t ∈ c.account.transactions, 0 < t.amount) ∧
    (∀ op k c, (BankSystem.run ops).customers.get? k = some c →
      ∃ c2, ((BankSystem.run ops).step op).customers.get? k = some c2 ∧
        ∃ added, c2.account.transactions = c.account.transactions ++ added) := by
  refine ⟨run_preserved positive_preserved ops, ?_⟩
  intro op k c hc
  obtain ⟨c2, h2, hg⟩ := step_extends (BankSystem.run ops) op k c hc
  exact ⟨c2, h2, hg.2.2.2.2⟩

theorem histories_append_only_witness :
    (0 : Double) < (Transaction.mk "Deposit" (Double.whole 500)).amount ∧
    ∃ c2, ((BankSystem.run [Op.createCustomer "John Smith" "john1",
        Op.deposit "john1" (Double.units 500)]).step
          (Op.withdraw "john1" (Double.units 200))).customers.get? 0 = some c2 ∧
      ∃ added, c2.account.transactions =
        (Customer.mk "John Smith" "john1" 1
          (Account.mk 1001 (Double.whole 500)
            [Transaction.mk "Deposit" (Double.whole 500)])).account.transactions ++ added :=
  ⟨(histories_append_only
        [Op.createCustomer "John Smith" "john1", Op.deposit "john1" (Double.units 500)]).1
      (Customer.mk "John Smith" "john1" 1
        (Account.mk 1001 (Double.whole 500) [Transaction.mk "Deposit" (Double.whole 500)]))
      (by decide) (Transaction.mk "Deposit" (Double.whole 500)) (by decide),
   (histories_append_only
        [Op.createCustomer "John Smith" "john1", Op.deposit "john1" (Double.units 500)]).2
      (Op.withdraw "john1" (Double.units 200)) 0
      (Customer.mk "John Smith" "john1" 1
        (Account.mk 1001 (Double.whole 500) [Transaction.mk "Deposit" (Double.whole 500)]))
      (by decide)⟩

/-- C20: registry-level deposit and withdraw change at most the account (balance and
history) of the customer that `findCustomer(id)` returns, and registry-level transfer at
most the accounts of the two resolved customers: the serial counter, the number and order
of the customers, every name, id, serial number and account number, and the balance and
history of every other customer are as before. -/
theorem operations_frame (bs : BankSystem) (amount : Int) :
    (∀ id, bs.SameExcept (bs.findCustomer id).toList (bs.deposit id amount).1 ∧
      bs.SameExcept (bs.findCustomer id).toList (bs.withdraw id amount).1) ∧
    (∀ fromID toID,
      bs.SameExcept ((bs.findCustomer fromID).toList ++ (bs.findCustomer toID).toList)
        (bs.transfer fromID toID amount).1) :=
  ⟨fun id => ⟨(deposit_evolves bs id amount).sameExcept,
      (withdraw_evolves bs id amount).sameExcept⟩,
   fun fromID toID => (transfer_evolves bs fromID toID amount).sameExcept⟩

/-! ## Numbering of customers -/

theorem get?_map_identity (l : List Customer) (k : Nat) :
    (l.map Customer.identity).get? k = (l.get? k).map Customer.identity := by
  simp

theorem wellNumbered_init : WellNumbered (BankSystem.init.customers.map Customer.identity)
    BankSystem.init.serialCounter := by
  simp [WellNumbered, BankSystem.init]

theorem wellNumbered_append (ids : List (String × String × Nat × Nat)) (n : Nat)
    (h : WellNumbered ids n) (name id : String) (hid : ∀ e ∈ ids, e.2.1 ≠ id) :
    WellNumbered (ids ++ [(name, id, n, n + 1000)]) (n + 1) := by
  obtain ⟨hn, hpos, hids, hsr, hlt⟩ := h
  refine ⟨by simp [hn], ?_, ?_, ?_, ?_⟩
  · intro k e he
    by_cases hk : k < ids.length
    · rw [get?_append_of_lt _ _ k hk] at he
      exact hpos k e he
    · have hk2 : k < (ids ++ [(name, id, n, n + 1000)]).length := get?_lt he
      simp only [List.length_append, List.length_singleton] at hk2
      have hk3 : k = ids.length := by omega
      subst hk3
      have hlast : (ids ++ [(name, id, n, n + 1000)]).get? ids.length =
          some (name, id, n, n + 1000) := by simp
      rw [hlast] at he
      cases he
      exact ⟨hn, by simp [hn]⟩
  · rw [List.map_append, List.nodup_append]
    refine ⟨hids, by simp, ?_⟩
    intro x hx hx2
    simp only [List.map_cons, List.map_nil, List.mem_singleton] at hx2
    obtain ⟨e, he, rfl⟩ := List.mem_map.1 hx
    exact hid e he hx2
  · rw [List.map_append, List.nodup_append]
    refine ⟨hsr, by simp, ?_⟩
    intro x hx hx2
    simp only [List.map_cons, List.map_nil, List.mem_singleton] at hx2
    obtain ⟨e, he, rfl⟩ := List.mem_map.1 hx
    have := (hlt e he).1
    omega
  · intro e he
    simp only [List.mem_append, List.mem_singleton] at he
    rcases he with he | rfl
    · have := hlt e he
      exact ⟨by omega, this.2⟩
    · exact ⟨by simp, rfl⟩

theorem wellNumbered_step (bs : BankSystem) (op : Op)
    (h : WellNumbered (bs.customers.map Customer.identity) bs.serialCounter) :
    WellNumbered ((bs.step op).customers.map Customer.identity) (bs.step op).serialCounter := by
  rcases step_cases bs op with ⟨t, he⟩ | ⟨name, id, _, _, _, hnone, hs⟩
  · have hse := he.sameExcept
    rw [hse.1, hse.2.1]
    exact h
  · rw [hs]
    simp only [List.map_append, List.map_cons, List.map_nil]
    apply wellNumbered_append _ _ h
    intro e he
    obtain ⟨c, hc, rfl⟩ := List.mem_map.1 he
    exact (findIn_none bs.customers id).1 hnone c hc

theorem wellNumbered_run (ops : List Op) :
    WellNumbered ((BankSystem.run ops).customers.map Customer.identity)
      (BankSystem.run ops).serialCounter :=
  run_induction
    (fun bs => WellNumbered (bs.customers.map Customer.identity) bs.serialCounter)
    wellNumbered_init wellNumbered_step ops

/-- C11: after any rounds of createCustomer (accepted or rejected), deposit, withdraw and
transfer from the empty registry, the customer at position `k` of the creation order
(counting from `0`, so the `k + 1`-th created) has serial number `k + 1` and account number
`k + 1 + 1000`, and the counter is one more than the number of customers. A further round
either keeps the customers' number and the counter, or is an accepted creation that
appends one customer carrying the next number; a createCustomer pass that does not report
success leaves the registry, counter included, as it was. -/
theorem serial_numbers (ops : List Op) :
    (BankSystem.run ops).serialCounter = (BankSystem.run ops).customers.length + 1 ∧
    (∀ k c, (BankSystem.run ops).customers.get? k = some c →
      c.srNo = k + 1 ∧ c.account.accNumber = k + 1 + 1000) ∧
    (∀ op,
      (((BankSystem.run ops).step op).customers.length =
          (BankSystem.run ops).customers.length ∧
        ((BankSystem.run ops).step op).serialCounter = (BankSystem.run ops).serialCounter) ∨
      (∃ name id, op = Op.createCustomer name id ∧
        ((BankSystem.run ops).step op).customers =
          (BankSystem.run ops).customers ++
            [Customer.new name id ((BankSystem.run ops).customers.length + 1)] ∧
        ((BankSystem.run ops).step op).serialCounter =
          (BankSystem.run ops).serialCounter + 1)) ∧
    (∀ name id,
      ((BankSystem.run ops).createCustomer name id).2 ≠
          ["Customer Account created successfully.\n"] →
        ((BankSystem.run ops).createCustomer name id).1 = BankSystem.run ops) := by
  obtain ⟨hn, hpos, _, _, _⟩ := wellNumbered_run ops
  rw [List.length_map] at hn
  refine ⟨hn, ?_, ?_, ?_⟩
  · intro k c hc
    have h := hpos k c.identity (by rw [get?_map_identity, hc]; rfl)
    exact h
  · intro op
    rcases step_cases (BankSystem.run ops) op with ⟨t, he⟩ | ⟨name, id, hop, _, _, _, hs⟩
    · exact Or.inl ⟨he.2.1, he.1⟩
    · refine Or.inr ⟨name, id, hop, ?_, ?_⟩
      · rw [hs, hn]
      · rw [hs]
  · intro name id hout
    cases h1 : isValidName name with
    | false => rw [createCustomer_invalidName _ name id h1]
    | true =>
      cases h2 : isValidCustomerID id with
      | false => rw [createCustomer_invalidID _ name id h1 h2]
      | true =>
        cases h3 : ((BankSystem.run ops).findCustomer id).isSome with
        | true => rw [createCustomer_existing _ name id h1 h2 h3]
        | false =>
          rw [createCustomer_created _ name id h1 h2 h3] at hout
          exact absurd rfl hout

theorem serial_numbers_witness :
    (Customer.mk "Mary Ann" "mary2" 2 (Account.mk 1002 0 [])).srNo = 1 + 1 ∧
    (Customer.mk "Mary Ann" "mary2" 2 (Account.mk 1002 0 [])).account.accNumber =
      1 + 1 + 1000 :=
  (serial_numbers
      [Op.createCustomer "John Smith" "john1", Op.createCustomer "john" "x1",
       Op.createCustomer "Jane Doe" "john1", Op.createCustomer "Jane Doe" "bad id",
       Op.deposit "john1" (Double.units 500), Op.createCustomer "Mary Ann" "mary2"]).2.1 1
    (Customer.mk "Mary Ann" "mary2" 2 (Account.mk 1002 0 [])) (by decide)

/-- C16: in every state reached from the empty registry by createCustomer, deposit,
withdraw and transfer rounds, no two customers of the registry have the same id, the same
serial number or the same account number. -/
theorem ids_pairwise_distinct (ops : List Op) :
    ((BankSystem.run ops).customers.map Customer.id).Nodup ∧
    ((BankSystem.run ops).customers.map Customer.srNo).Nodup ∧
    ((BankSystem.run ops).customers.map fun c => c.account.accNumber).Nodup := by
  obtain ⟨_, _, hids, hsr, hlt⟩ := wellNumbered_run ops
  rw [List.map_map] at hids hsr
  refine ⟨hids, hsr, ?_⟩
  have hacc : ((BankSystem.run ops).customers.map fun c => c.account.accNumber) =
      ((BankSystem.run ops).customers.map Customer.srNo).map (· + 1000) := by
    rw [List.map_map]
    apply List.map_congr_left
    intro c hc
    exact (hlt c.identity (List.mem_map.2 ⟨c, hc, rfl⟩)).2
  rw [hacc]
  exact hsr.map (fun a b hab => by simpa using hab)

/-! ## The total of all balances -/

theorem sum_balance_setAccountIn (cs : List Customer) (p : Nat) (a : Account) (c : Customer)
    (h : cs.get? p = some c) :
    ((setAccountIn cs p a).map fun c => c.account.balance.unitsOf).sum =
      (cs.map fun c => c.account.balance.unitsOf).sum - c.account.balance.unitsOf +
        a.balance.unitsOf := by
  induction cs generalizing p with
  | nil => exact Option.noConfusion h
  | cons d ds ih =>
    cases p with
    | zero =>
      have hd : d = c := Option.some.inj h
      subst hd
      simp only [setAccountIn, List.map_cons, List.sum_cons]
      omega
    | succ q =>
      have hq : ds.get? q = some c := h
      simp only [setAccountIn, List.map_cons, List.sum_cons, ih q hq]
      omega

theorem totalBalance_setAccount (bs : BankSystem) (p : Nat) (a : Account)
    (hp : p < bs.customers.length) :
    (bs.setAccount p a).totalBalance =
      bs.totalBalance - (bs.getAccount p).balance.unitsOf + a.balance.unitsOf := by
  have hc : bs.customers.get? p = some (bs.customers.get ⟨p, hp⟩) := List.get?_eq_get hp
  rw [getAccount_of_get? bs p _ hc]
  exact sum_balance_setAccountIn bs.customers p a _ hc

theorem length_setAccount (bs : BankSystem) (p : Nat) (a : Account) :
    (bs.setAccount p a).customers.length = bs.customers.length :=
  length_setAccountIn _ _ _

theorem accountTransfer_rejected (bs : BankSystem) (s r : Nat) (amount : Double)
    (h : amount ≤ 0 ∨ amount > (bs.getAccount s).balance) :
    bs.accountTransfer s r amount = (false, bs, ["Insufficient Funds.\n"]) := by
  simp only [BankSystem.accountTransfer, withdraw_rejected _ amount h]
  rw [setAccount_getAccount]

theorem accountTransfer_total (bs : BankSystem) (s r : Nat) (amount : Double)
    (hs : s < bs.customers.length) (hr : r < bs.customers.length)
    (h : ¬ (amount ≤ 0 ∨ amount > (bs.getAccount s).balance)) :
    (bs.accountTransfer s r amount).2.1.totalBalance =
      bs.totalBalance - (bs.getAccount s).balance.unitsOf +
        ((bs.getAccount s).balance - amount).unitsOf -
        ((bs.setAccount s ((bs.getAccount s).withdraw amount).2.1).getAccount r).balance.unitsOf +
        (((bs.setAccount s ((bs.getAccount s).withdraw amount).2.1).getAccount r).balance +
          amount).unitsOf := by
  have h1 : ¬ amount ≤ 0 := fun hc => h (Or.inl hc)
  simp only [BankSystem.accountTransfer, withdraw_accepted _ amount h,
    deposit_pos _ amount h1]
  rw [totalBalance_setAccount _ s _ (by simpa [length_setAccount] using hs),
    totalBalance_setAccount _ r _ (by simpa [length_setAccount] using hr),
    totalBalance_setAccount _ s _ hs]
  simp only [Account.recordTransferTo]
  omega

theorem transfer_state (bs : BankSystem) (fromID toID : String) (amount : Int) (s r : Nat)
    (hs : bs.findCustomer fromID = some s) (hr : bs.findCustomer toID = some r) :
    (bs.transfer fromID toID amount).1 =
      (bs.accountTransfer s r (Double.read amount)).2.1 := by
  unfold BankSystem.transfer
  rw [hs, hr]
  dsimp only
  rcases hres : bs.accountTransfer s r (Double.read amount) with ⟨ok, bs1, out⟩
  cases ok <;> rfl

theorem accountTransfer_self_balance (bs : BankSystem) (p : Nat) (amount : Double)
    (hp : p < bs.customers.length)
    (h : ¬ (amount ≤ 0 ∨ amount > (bs.getAccount p).balance)) :
    ((bs.accountTransfer p p amount).2.1.getAccount p).balance =
      (bs.getAccount p).balance - amount + amount := by
  have h1 : ¬ amount ≤ 0 := fun hc => h (Or.inl hc)
  simp only [BankSystem.accountTransfer, withdraw_accepted _ amount h]
  rw [getAccount_setAccount_same _ p _ hp, deposit_pos _ amount h1]
  simp only [setAccount_overwrite]
  rw [getAccount_setAccount_same _ p _ hp, getAccount_setAccount_same _ p _ hp]
  rfl

theorem finite_guard {m n : Int} (hpos : 0 < n) (hle : n ≤ m) :
    ¬ (Double.finite n ≤ 0 ∨ Double.finite n > Double.finite m) := by
  apply guard_of_pos_le
  · rw [Double.zero_eq, Double.finite_lt_finite]
    exact hpos
  · rw [Double.finite_le_finite]
    exact hle

/-- C19, as stated, fails, in both parts. With two customers holding `2 ^ 53` each, a
transfer of 1 from the first to the second goes through and leaves `2 ^ 53 - 1` and
`2 ^ 53`: the sum of the balances has dropped by 1. And a customer holding `2 ^ 53 + 2`
who transfers 1 to itself is left with `2 ^ 53`. -/
theorem transfer_total_counterexample :
    ((BankSystem.run
        [Op.createCustomer "John Smith" "john1", Op.deposit "john1" (Double.units (2 ^ 53)),
         Op.createCustomer "Mary Ann" "mary2",
         Op.deposit "mary2" (Double.units (2 ^ 53))]).totalBalance =
      Double.units (2 ^ 53) + Double.units (2 ^ 53) ∧
     ((BankSystem.run
        [Op.createCustomer "John Smith" "john1", Op.deposit "john1" (Double.units (2 ^ 53)),
         Op.createCustomer "Mary Ann" "mary2",
         Op.deposit "mary2" (Double.units (2 ^ 53))]).transfer "john1" "mary2"
          (Double.units 1)).2 =
      ["Withdrawal successful.\n", "Deposit successful.\n", "Transfer successful.\n"] ∧
     ((BankSystem.run
        [Op.createCustomer "John Smith" "john1", Op.deposit "john1" (Double.units (2 ^ 53)),
         Op.createCustomer "Mary Ann" "mary2",
         Op.deposit "mary2" (Double.units (2 ^ 53))]).transfer "john1" "mary2"
          (Double.units 1)).1.totalBalance =
      Double.units (2 ^ 53) + Double.units (2 ^ 53) - Double.units 1 ∧
     ((BankSystem.run
        [Op.createCustomer "John Smith" "john1", Op.deposit "john1" (Double.units (2 ^ 53)),
         Op.createCustomer "Mary Ann" "mary2",
         Op.deposit "mary2" (Double.units (2 ^ 53))]).transfer "john1" "mary2"
          (Double.units 1)).1.totalBalance ≠
      (BankSystem.run
        [Op.createCustomer "John Smith" "john1", Op.deposit "john1" (Double.units (2 ^ 53)),
         Op.createCustomer "Mary Ann" "mary2",
         Op.deposit "mary2" (Double.units (2 ^ 53))]).totalBalance) ∧
    (((BankSystem.run
        [Op.createCustomer "John Smith" "john1",
         Op.deposit "john1" (Double.units (2 ^ 53 + 2))]).getAccount 0).balance =
      Double.whole (2 ^ 53 + 2) ∧
     0 < Double.read (Double.units 1) ∧
     Double.read (Double.units 1) ≤ Double.whole (2 ^ 53 + 2) ∧
     (((BankSystem.run
        [Op.createCustomer "John Smith" "john1",
         Op.deposit "john1" (Double.units (2 ^ 53 + 2))]).transfer "john1" "john1"
          (Double.units 1)).1.getAccount 0).balance = Double.whole (2 ^ 53) ∧
     Double.whole (2 ^ 53) ≠ Double.whole (2 ^ 53 + 2)) := by
  decide

/-- C19, amended: a registry-level transfer that does not go through (a customer is
missing, or the amount is not positive or exceeds the sender's balance) leaves the whole
registry, and so the sum of all balances, as it was. A transfer that goes through leaves
the sender with `bx - a` and the receiver with `by + a` in double arithmetic, so between
two different customers the sum of all balances is as before whenever both results are
exact, and in a transfer from a customer to itself with `0 < amount ≤ balance` the balance
(a double, `ofInt m = finite m`) and the sum are as before whenever `balance - amount` is
exact. -/
theorem transfer_conserves_total (bs : BankSystem) (fromID toID : String) (amount : Int) :
    ((bs.findCustomer fromID = none ∨ bs.findCustomer toID = none ∨
        ∃ s, bs.findCustomer fromID = some s ∧
          (Double.read amount ≤ 0 ∨ Double.read amount > (bs.getAccount s).balance)) →
      (bs.transfer fromID toID amount).1 = bs ∧
      (bs.transfer fromID toID amount).1.totalBalance = bs.totalBalance) ∧
    (∀ s r m k n, bs.findCustomer fromID = some s → bs.findCustomer toID = some r →
      s ≠ r →
      (bs.getAccount s).balance = Double.finite m →
      (bs.getAccount r).balance = Double.finite k →
      Double.read amount = Double.finite n → 0 < n → n ≤ m →
      Double.ofInt (m - n) = Double.finite (m - n) →
      Double.ofInt (k + n) = Double.finite (k + n) →
      (bs.transfer fromID toID amount).1.totalBalance = bs.totalBalance) ∧
    (∀ p m n, bs.findCustomer fromID = some p → toID = fromID →
      (bs.getAccount p).balance = Double.finite m → Double.ofInt m = Double.finite m →
      Double.read amount = Double.finite n → 0 < n → n ≤ m →
      Double.ofInt (m - n) = Double.finite (m - n) →
      ((bs.transfer fromID toID amount).1.getAccount p).balance = (bs.getAccount p).balance ∧
      (bs.transfer fromID toID amount).1.totalBalance = bs.totalBalance) := by
  refine ⟨?_, ?_, ?_⟩
  · intro h
    have hsame : (bs.transfer fromID toID amount).1 = bs := by
      rcases h with h | h | ⟨s, hs, hg⟩
      · rw [missing_customer_transfer bs fromID toID amount (Or.inl h)]
      · rw [missing_customer_transfer bs fromID toID amount (Or.inr h)]
      · cases hr : bs.findCustomer toID with
        | none => rw [missing_customer_transfer bs fromID toID amount (Or.inr hr)]
        | some r =>
          rw [transfer_state bs fromID toID amount s r hs hr,
            accountTransfer_rejected bs s r _ hg]
    exact ⟨hsame, by rw [hsame]⟩
  · intro s r m k n hs hr hsr hm hk hn hpos hle hsub hadd
    have hg : ¬ (Double.read amount ≤ 0 ∨ Double.read amount > (bs.getAccount s).balance) := by
      rw [hn, hm]
      exact finite_guard hpos hle
    rw [transfer_state bs fromID toID amount s r hs hr,
      accountTransfer_total bs s r _ (findIn_lt _ _ _ hs) (findIn_lt _ _ _ hr) hg,
      getAccount_setAccount_ne _ s r _ hsr, hm, hk, hn]
    have h1 : (Double.finite m - Double.finite n) = Double.finite (m - n) := hsub
    have h2 : (Double.finite k + Double.finite n) = Double.finite (k + n) := hadd
    rw [h1, h2]
    simp only [Double.unitsOf]
    omega
  · intro p m n hp hsame hm hrep hn hpos hle hsub
    subst hsame
    have hg : ¬ (Double.read amount ≤ 0 ∨ Double.read amount > (bs.getAccount p).balance) := by
      rw [hn, hm]
      exact finite_guard hpos hle
    have hlt := findIn_lt _ _ _ hp
    have h1 : (Double.finite m - Double.finite n) = Double.finite (m - n) := hsub
    have h2 : (Double.finite (m - n) + Double.finite n) = Double.finite m := by
      show Double.ofInt (m - n + n) = Double.finite m
      rw [Int.sub_add_cancel]
      exact hrep
    rw [transfer_state bs toID toID amount p p hp hp]
    constructor
    · rw [accountTransfer_self_balance bs p _ hlt hg, hm, hn, h1, h2]
    · rw [accountTransfer_total bs p p _ hlt hlt hg, getAccount_setAccount_same _ p _ hlt,
        withdraw_accepted _ _ hg, hm, hn]
      show bs.totalBalance - (Double.finite m).unitsOf +
          (Double.finite m - Double.finite n).unitsOf -
          (Double.finite m - Double.finite n).unitsOf +
          (Double.finite m - Double.finite n + Double.finite n).unitsOf = bs.totalBalance
      rw [h1, h2]
      simp only [Double.unitsOf]
      omega

theorem transfer_conserves_total_witness :
    (((BankSystem.run [Op.createCustomer "John Smith" "john1",
        Op.deposit "john1" (Double.units 500)]).transfer "john1" "john1"
          (Double.units 100)).1.getAccount 0).balance =
      ((BankSystem.run [Op.createCustomer "John Smith" "john1",
        Op.deposit "john1" (Double.units 500)]).getAccount 0).balance :=
  ((transfer_conserves_total
      (BankSystem.run [Op.createCustomer "John Smith" "john1",
        Op.deposit "john1" (Double.units 500)])
      "john1" "john1" (Double.units 100)).2.2 0 (Double.units 500) (Double.units 100)
      (by decide) rfl (by decide) (by decide) (by decide) (by decide) (by decide)
      (by decide)).1

/-! ## What the matcher accepts -/

theorem matchList_none (w : List Char) : Regex.none.matchList w = false := by
  induction w with
  | nil => rfl
  | cons a x ih => exact ih

theorem matchList_eps (w : List Char) : Regex.eps.matchList w = true ↔ w = [] := by
  cases w with
  | nil => exact ⟨fun _ => rfl, fun _ => rfl⟩
  | cons a x =>
    have h : Regex.eps.matchList (a :: x) = false := matchList_none x
    rw [h]
    exact ⟨fun h => absurd h (by simp), fun h => absurd h (by simp)⟩

theorem matchList_set (rs : List (Char × Char)) (w : List Char) :
    (Regex.set rs).matchList w = true ↔ ∃ c, w = [c] ∧ Regex.inRanges rs c = true := by
  cases w with
  | nil =>
    constructor
    · intro h
      exact absurd h (by simp [Regex.matchList, Regex.nullable])
    · rintro ⟨c, hc, _⟩
      exact absurd hc (by simp)
  | cons a x =>
    show ((Regex.set rs).deriv a).matchList x = true ↔ _
    by_cases ha : Regex.inRanges rs a = true
    · simp only [Regex.deriv, ha, if_true, matchList_eps]
      constructor
      · intro hx
        exact ⟨a, by rw [hx], ha⟩
      · rintro ⟨c, hc, _⟩
        exact (List.cons.inj hc).2
    · simp only [Regex.deriv, ha, Bool.false_eq_true, if_false, matchList_none]
      constructor
      · intro h
        exact absurd h (by simp)
      · rintro ⟨c, hc, hin⟩
        rw [(List.cons.inj hc).1] at ha
        exact absurd hin ha

theorem matchList_alt (r s : Regex) (w : List Char) :
    (Regex.alt r s).matchList w = (r.matchList w || s.matchList w) := by
  induction w generalizing r s with
  | nil => rfl
  | cons a x ih => exact ih (r.deriv a) (s.deriv a)

theorem matchList_seq (r s : Regex) (w : List Char) :
    (Regex.seq r s).matchList w = true ↔
      ∃ u v, w = u ++ v ∧ r.matchList u = true ∧ s.matchList v = true := by
  induction w generalizing r with
  | nil =>
    show (r.nullable && s.nullable) = true ↔ _
    rw [Bool.and_eq_true]
    constructor
    · rintro ⟨h1, h2⟩
      exact ⟨[], [], rfl, h1, h2⟩
    · rintro ⟨u, v, huv, h1, h2⟩
      have hu : u = [] := (List.append_eq_nil.1 huv.symm).1
      have hv : v = [] := (List.append_eq_nil.1 huv.symm).2
      subst hu
      subst hv
      exact ⟨h1, h2⟩
  | cons a x ih =>
    show ((Regex.seq r s).deriv a).matchList x = true ↔ _
    by_cases hn : r.nullable = true
    · simp only [Regex.deriv, hn, if_true, matchList_alt, Bool.or_eq_true, ih]
      constructor
      · rintro (⟨u, v, huv, h1, h2⟩ | h)
        · exact ⟨a :: u, v, by rw [huv]; rfl, h1, h2⟩
        · exact ⟨[], a :: x, rfl, hn, h⟩
      · rintro ⟨u, v, huv, h1, h2⟩
        cases u with
        | nil =>
          right
          rw [List.nil_append] at huv
          rw [← huv] at h2
          exact h2
        | cons b u2 =>
          left
          have hb : a = b := (List.cons.inj huv).1
          subst hb
          exact ⟨u2, v, (List.cons.inj huv).2, h1, h2⟩
    · simp only [Regex.deriv, hn, Bool.false_eq_true, if_false, ih]
      constructor
      · rintro ⟨u, v, huv, h1, h2⟩
        exact ⟨a :: u, v, by rw [huv]; rfl, h1, h2⟩
      · rintro ⟨u, v, huv, h1, h2⟩
        cases u with
        | nil => exact absurd h1 hn
        | cons b u2 =>
          have hb : a = b := (List.cons.inj huv).1
          subst hb
          exact ⟨u2, v, (List.cons.inj huv).2, h1, h2⟩

theorem matchList_star_cons (r : Regex) (a : Char) (x : List Char) :
    (Regex.star r).matchList (a :: x) = true ↔
      ∃ u v, x = u ++ v ∧ r.matchList (a :: u) = true ∧
        (Regex.star r).matchList v = true := by
  show (Regex.seq (r.deriv a) (Regex.star r)).matchList x = true ↔ _
  rw [matchList_seq]
  rfl

theorem matchList_star_set (rs : List (Char × Char)) (w : List Char) :
    (Regex.star (Regex.set rs)).matchList w = true ↔ w.all (Regex.inRanges rs) = true := by
  induction w with
  | nil => exact ⟨fun _ => rfl, fun _ => rfl⟩
  | cons a x ih =>
    rw [matchList_star_cons, List.all_cons, Bool.and_eq_true, ← ih]
    constructor
    · rintro ⟨u, v, huv, h1, h2⟩
      obtain ⟨c, hc, hin⟩ := (matchList_set rs (a :: u)).1 h1
      have hu : u = [] := (List.cons.inj hc).2
      have hac : a = c := (List.cons.inj hc).1
      subst hu
      subst hac
      rw [List.nil_append] at huv
      subst huv
      exact ⟨hin, h2⟩
    · rintro ⟨h1, h2⟩
      exact ⟨[], x, rfl, (matchList_set rs [a]).2 ⟨a, rfl, h1⟩, h2⟩

theorem matchList_set_star_set (rs qs : List (Char × Char)) (w : List Char) :
    (Regex.seq (Regex.set rs) (Regex.star (Regex.set qs))).matchList w = true ↔
      ∃ c cs, w = c :: cs ∧ Regex.inRanges rs c = true ∧
        cs.all (Regex.inRanges qs) = true := by
  rw [matchList_seq]
  constructor
  · rintro ⟨u, v, huv, h1, h2⟩
    obtain ⟨c, hc, hin⟩ := (matchList_set rs u).1 h1
    subst hc
    exact ⟨c, v, huv, hin, (matchList_star_set qs v).1 h2⟩
  · rintro ⟨c, cs, hw, h1, h2⟩
    exact ⟨[c], cs, hw, (matchList_set rs [c]).2 ⟨c, rfl, h1⟩,
      (matchList_star_set qs cs).2 h2⟩

/-! ## The two patterns against the formats of the specification -/

theorem inRanges_upper (c : Char) : Regex.inRanges [('A', 'Z')] c = c.isUpper := by
  simp only [Regex.inRanges, List.any_cons, List.any_nil, Bool.or_false, Char.isUpper,
    Char.toNat, ge_iff_le, UInt32.le_def, Fin.le_def]
  rfl

theorem inRanges_lower (c : Char) : Regex.inRanges [('a', 'z')] c = c.isLower := by
  simp only [Regex.inRanges, List.any_cons, List.any_nil, Bool.or_false, Char.isLower,
    Char.toNat, ge_iff_le, UInt32.le_def, Fin.le_def]
  rfl

theorem inRanges_alphanum (c : Char) :
    Regex.inRanges [('a', 'z'), ('A', 'Z'), ('0', '9')] c = c.isAlphanum := by
  have h : Regex.inRanges [('a', 'z'), ('A', 'Z'), ('0', '9')] c =
      (Regex.inRanges [('a', 'z')] c || (Regex.inRanges [('A', 'Z')] c ||
        (decide ('0'.toNat ≤ c.toNat) && decide (c.toNat ≤ '9'.toNat)))) := by
    simp [Regex.inRanges]
  have hd : (decide ('0'.toNat ≤ c.toNat) && decide (c.toNat ≤ '9'.toNat)) = c.isDigit := by
    simp only [Char.isDigit, Char.toNat, ge_iff_le, UInt32.le_def, Fin.le_def]
    rfl
  rw [h, hd, inRanges_upper, inRanges_lower, Char.isAlphanum, Char.isAlpha]
  cases c.isUpper <;> cases c.isLower <;> cases c.isDigit <;> rfl

theorem inRanges_space (c : Char) (h : Regex.inRanges [(' ', ' ')] c = true) : c = ' ' := by
  simp only [Regex.inRanges, List.any_cons, List.any_nil, Bool.or_false, Bool.and_eq_true,
    decide_eq_true_eq] at h
  have h2 : c.toNat = ' '.toNat := by omega
  apply Char.ext
  apply UInt32.ext
  exact h2

theorem matchList_capitalisedWord (w : List Char) :
    capitalisedWord.matchList w = true ↔ isCapitalisedWordSpec w = true := by
  unfold capitalisedWord
  rw [matchList_set_star_set]
  have hl : Regex.inRanges [('a', 'z')] = Char.isLower := funext inRanges_lower
  constructor
  · rintro ⟨c, cs, hw, h1, h2⟩
    subst hw
    rw [inRanges_upper] at h1
    rw [hl] at h2
    simp only [isCapitalisedWordSpec, h1, h2, Bool.and_self]
  · intro h
    cases w with
    | nil => exact absurd h (by simp [isCapitalisedWordSpec])
    | cons c cs =>
      simp only [isCapitalisedWordSpec, Bool.and_eq_true] at h
      exact ⟨c, cs, rfl, by rw [inRanges_upper]; exact h.1, by rw [hl]; exact h.2⟩

theorem matchList_spaceWord (w : List Char) :
    (Regex.seq (Regex.set [(' ', ' ')]) capitalisedWord).matchList w = true ↔
      ∃ u, w = ' ' :: u ∧ isCapitalisedWordSpec u = true := by
  rw [matchList_seq]
  constructor
  · rintro ⟨p, q, hw, h1, h2⟩
    obtain ⟨c, hc, hin⟩ := (matchList_set _ p).1 h1
    have hsp := inRanges_space c hin
    subst hc
    subst hsp
    exact ⟨q, hw, (matchList_capitalisedWord q).1 h2⟩
  · rintro ⟨u, hw, hu⟩
    exact ⟨[' '], u, hw, (matchList_set _ _).2 ⟨' ', rfl, by decide⟩,
      (matchList_capitalisedWord u).2 hu⟩

theorem matchList_spacedWords_of_length (n : Nat) :
    ∀ v : List Char, v.length ≤ n →
      (Regex.star (Regex.seq (Regex.set [(' ', ' ')]) capitalisedWord)).matchList v = true →
      ∃ ws : List (List Char),
        (∀ w ∈ ws, isCapitalisedWordSpec w = true) ∧ v = spacedWords ws := by
  induction n with
  | zero =>
    intro v hv _
    have : v = [] := List.eq_nil_of_length_eq_zero (by omega)
    exact ⟨[], by simp, by rw [this]; rfl⟩
  | succ m ih =>
    intro v hv hm
    cases v with
    | nil => exact ⟨[], by simp, rfl⟩
    | cons a x =>
      obtain ⟨u, v2, hx, h1, h2⟩ := (matchList_star_cons _ a x).1 hm
      obtain ⟨u2, hu2, hword⟩ := (matchList_spaceWord (a :: u)).1 h1
      have ha : a = ' ' := (List.cons.inj hu2).1
      have hu : u = u2 := (List.cons.inj hu2).2
      subst ha
      subst hu
      have hlen : v2.length ≤ m := by
        rw [hx] at hv
        simp only [List.length_cons, List.length_append] at hv
        omega
      obtain ⟨ws, hws, hv2⟩ := ih v2 hlen h2
      refine ⟨u :: ws, ?_, ?_⟩
      · intro w hw
        rcases List.mem_cons.1 hw with rfl | hw
        · exact hword
        · exact hws w hw
      · rw [hx, hv2]
        rfl

theorem matchList_spacedWords (v : List Char) :
    (Regex.star (Regex.seq (Regex.set [(' ', ' ')]) capitalisedWord)).matchList v = true ↔
      ∃ ws : List (List Char),
        (∀ w ∈ ws, isCapitalisedWordSpec w = true) ∧ v = spacedWords ws := by
  constructor
  · exact matchList_spacedWords_of_length v.length v (le_refl _)
  · rintro ⟨ws, hws, hv⟩
    subst hv
    induction ws with
    | nil => rfl
    | cons w ws ih =>
      show (Regex.star (Regex.seq (Regex.set [(' ', ' ')]) capitalisedWord)).matchList
        (' ' :: (w ++ spacedWords ws)) = true
      rw [matchList_star_cons]
      refine ⟨w, spacedWords ws, rfl, ?_, ih (fun x hx => hws x (List.mem_cons_of_mem _ hx))⟩
      exact (matchList_spaceWord _).2 ⟨w, rfl, hws w (List.mem_cons_self _ _)⟩

theorem joinWithSpaces_cons (w : List Char) (ws : List (List Char)) :
    joinWithSpaces (w :: ws) = w ++ spacedWords ws := by
  induction ws generalizing w with
  | nil => simp [joinWithSpaces, spacedWords]
  | cons w2 ws ih =>
    show w ++ ' ' :: joinWithSpaces (w2 :: ws) = w ++ ' ' :: (w2 ++ spacedWords ws)
    rw [ih w2]

theorem isValidName_iff_nameSpec (name : String) : isValidName name = true ↔ NameSpec name := by
  unfold isValidName Regex.regex_match nameRegex NameSpec
  rw [matchList_seq]
  constructor
  · rintro ⟨u, v, huv, h1, h2⟩
    obtain ⟨ws, hws, hv⟩ := (matchList_spacedWords v).1 h2
    refine ⟨u :: ws, by simp, ?_, ?_⟩
    · intro w hw
      rcases List.mem_cons.1 hw with rfl | hw
      · exact (matchList_capitalisedWord _).1 h1
      · exact hws w hw
    · rw [joinWithSpaces_cons, huv, hv]
  · rintro ⟨ws, hne, hws, hname⟩
    cases ws with
    | nil => exact absurd rfl hne
    | cons w rest =>
      rw [joinWithSpaces_cons] at hname
      exact ⟨w, spacedWords rest, hname,
        (matchList_capitalisedWord w).2 (hws w (List.mem_cons_self _ _)),
        (matchList_spacedWords _).2
          ⟨rest, fun x hx => hws x (List.mem_cons_of_mem _ hx), rfl⟩⟩

theorem isValidCustomerID_eq_idSpec (id : String) : isValidCustomerID id = idSpec id := by
  have hA : Regex.inRanges [('a', 'z'), ('A', 'Z'), ('0', '9')] = Char.isAlphanum :=
    funext inRanges_alphanum
  have h := matchList_set_star_set [('a', 'z'), ('A', 'Z'), ('0', '9')]
    [('a', 'z'), ('A', 'Z'), ('0', '9')] id.toList
  rw [hA] at h
  have h2 : isValidCustomerID id = true ↔ idSpec id = true := by
    unfold isValidCustomerID Regex.regex_match idRegex idSpec
    rw [h]
    constructor
    · rintro ⟨c, cs, hw, h1, h2⟩
      rw [hw]
      simp [h1, h2]
    · intro hs
      cases hl : id.toList with
      | nil => rw [hl] at hs; exact absurd hs (by simp)
      | cons c cs =>
        rw [hl] at hs
        simp only [List.isEmpty_cons, Bool.not_false, List.all_cons, Bool.true_and,
          Bool.and_eq_true] at hs
        exact ⟨c, cs, rfl, hs.1, hs.2⟩
  cases hv : isValidCustomerID id <;> cases hs : idSpec id <;> simp_all

/-! ## Claims about the two formats -/

/-- C12: `isValidName(name)` is true exactly when `name` is a non-empty sequence of words
separated by exactly one space each, with no space before the first or after the last
word, every word being one ASCII uppercase letter followed by zero or more ASCII lowercase
letters. It accepts `Mary Ann` and `John` and rejects `john`, `John  Smith` (two spaces),
`John3` and the empty string. -/
theorem isValidName_format :
    (∀ name : String, isValidName name = true ↔ NameSpec name) ∧
    isValidName "Mary Ann" = true ∧ isValidName "John" = true ∧
    isValidName "john" = false ∧ isValidName "John  Smith" = false ∧
    isValidName "John3" = false ∧ isValidName "" = false :=
  ⟨isValidName_iff_nameSpec, by decide, by decide, by decide, by decide, by decide,
   by decide⟩

/-- C13: `isValidCustomerID(id)` is true exactly when `id` is non-empty and each of its
characters is an ASCII letter or an ASCII digit. A createCustomer pass that has got as far
as the id (the name was accepted) reports `Invalid ID format` exactly when
`isValidCustomerID(id)` is false, and it does so whatever the registry holds, so before
any look-up of the id, and leaves the registry as it was. -/
theorem isValidCustomerID_format (bs : BankSystem) (name id : String)
    (hn : isValidName name = true) :
    isValidCustomerID id = idSpec id ∧
    ((bs.createCustomer name id).2 = ["Invalid ID format\n(Alphanumeric only, unique)\n"] ↔
      isValidCustomerID id = false) ∧
    (isValidCustomerID id = false →
      bs.createCustomer name id =
        (bs, ["Invalid ID format\n(Alphanumeric only, unique)\n"])) := by
  refine ⟨isValidCustomerID_eq_idSpec id, ?_, fun h => createCustomer_invalidID bs name id hn h⟩
  constructor
  · intro hout
    cases h2 : isValidCustomerID id with
    | false => rfl
    | true =>
      cases h3 : (bs.findCustomer id).isSome with
      | true =>
        rw [createCustomer_existing bs name id hn h2 h3] at hout
        have hne : ["Customer ID already exists. Try different.\n"] ≠
            ["Invalid ID format\n(Alphanumeric only, unique)\n"] := by decide
        exact absurd hout hne
      | false =>
        rw [createCustomer_created bs name id hn h2 h3] at hout
        have hne : ["Customer Account created successfully.\n"] ≠
            ["Invalid ID format\n(Alphanumeric only, unique)\n"] := by decide
        exact absurd hout hne
  · intro h
    rw [createCustomer_invalidID bs name id hn h]

theorem isValidCustomerID_format_witness :
    isValidCustomerID "john 1" = idSpec "john 1" ∧
    (BankSystem.run [Op.createCustomer "John Smith" "john1"]).createCustomer
        "Mary Ann" "john 1" =
      (BankSystem.run [Op.createCustomer "John Smith" "john1"],
       ["Invalid ID format\n(Alphanumeric only, unique)\n"]) :=
  ⟨(isValidCustomerID_format (BankSystem.run [Op.createCustomer "John Smith" "john1"])
      "Mary Ann" "john 1" (by decide)).1,
   (isValidCustomerID_format (BankSystem.run [Op.createCustomer "John Smith" "john1"])
      "Mary Ann" "john 1" (by decide)).2.2 (by decide)⟩

end Banking
